import Mathlib

/-
  Verification of the PowderCore falling-sand engine (src/lib.rs).

  The Rust source is shallowly embedded: machine integers become `Nat`/`Int`
  with explicit reductions modulo 2^64 / 2^32 where the source wraps, the
  flat `Vec<Cell>` buffer becomes a total function from flat indices to
  cells, and every stateful routine becomes an explicit state-passing
  function.  Definitions follow the source line by line; quirks of the
  source (e.g. the gas handler decrementing the life of the *source* index
  even after the gas moved) are reproduced, not cleaned up.
-/

namespace PowderCore

/-- The 34 materials, from `enum Element` in the source. -/
inductive Element where
  | Empty
  | Sand
  | Gunpowder
  | Ash
  | Snow
  | Water
  | SaltWater
  | Oil
  | Ethanol
  | Acid
  | Lava
  | Mercury
  | Stone
  | Glass
  | Wall
  | Wood
  | Plant
  | Metal
  | Wire
  | Ice
  | Coal
  | Dirt
  | WetDirt
  | Seaweed
  | Smoke
  | Steam
  | Gas
  | ToxicGas
  | Hydrogen
  | Chlorine
  | Fire
  | Lightning
  | Human
  | Zombie
  deriving DecidableEq, Repr

/-- `struct Cell { elem, life }` from the source. -/
structure Cell where
  elem : Element
  life : Int
  deriving DecidableEq, Repr

/-- `Cell::default()`: `{ Empty, 0 }`. -/
def cellDefault : Cell := ⟨Element.Empty, 0⟩

/-- `struct Rng { state: u64 }`; the u64 is modelled as a `Nat` reduced
modulo `2 ^ 64` at each update, exactly where the source wraps. -/
structure Rng where
  state : Nat
  deriving DecidableEq, Repr

/-- `Rng::new`: a zero seed is remapped to `0xDEADBEEFCAFEBABE`. -/
def Rng.new (seed : Nat) : Rng :=
  ⟨if seed = 0 then 0xDEADBEEFCAFEBABE else seed⟩

/-- `Rng::next_u32`: `state = state.wrapping_mul(1664525).wrapping_add(1013904223);
(state >> 16) as u32`.  Returns the drawn value and the advanced generator. -/
def Rng.next_u32 (r : Rng) : Nat × Rng :=
  let s := (r.state * 1664525 + 1013904223) % 2 ^ 64
  ((s / 2 ^ 16) % 2 ^ 32, ⟨s⟩)

/-- `Rng::range_i32(min, max)`: `min + (next_u32() % (max - min + 1).max(1))`. -/
def Rng.range_i32 (r : Rng) (lo hi : Int) : Int × Rng :=
  let span : Nat := (max (hi - lo + 1) 1).toNat
  let p := r.next_u32
  (lo + (p.1 % span : Nat), p.2)

/-- `Rng::chance(pct)`: false for 0 and true for ≥ 100 without drawing,
otherwise one draw and `next_u32() % 100 < pct`. -/
def Rng.chance (r : Rng) (pct : Nat) : Bool × Rng :=
  if pct = 0 then (false, r)
  else if 100 ≤ pct then (true, r)
  else
    let p := r.next_u32
    (decide (p.1 % 100 < pct), p.2)

/-- The LCG state update written as one equation (the spec's recurrence
`state = state*1664525 + 1013904223 (mod 2^64)`). -/
def lcgStep (s : Nat) : Nat := (s * 1664525 + 1013904223) % 2 ^ 64

/-- Spec-side state sequence: k-fold iteration of `lcgStep` from seed `S`. -/
def specStates (S : Nat) : Nat → Nat
  | 0 => S
  | k + 1 => lcgStep (specStates S k)

/-- Spec-side output sequence: the top 32 bits (shift by 16, truncate) of
each successive state, starting with the state after the first update. -/
def specOut (S k : Nat) : Nat := specStates S (k + 1) / 2 ^ 16 % 2 ^ 32

/-- Code-side output stream: the first `k` values drawn from `r`. -/
def rngOutputs (r : Rng) : Nat → List Nat
  | 0 => []
  | k + 1 =>
    let p := r.next_u32
    p.1 :: rngOutputs p.2 k

theorem specStates_shift (s : Nat) : ∀ k, specStates s (k + 1) = specStates (lcgStep s) k := by
  intro k
  induction k with
  | zero => simp [specStates]
  | succ k ih =>
    simp only [specStates]
    rw [← ih]
    simp only [specStates]

theorem rngOutputs_succ (s : Nat) (K : Nat) :
    rngOutputs ⟨s⟩ (K + 1) = (lcgStep s / 2 ^ 16 % 2 ^ 32) :: rngOutputs ⟨lcgStep s⟩ K := by
  simp only [rngOutputs, Rng.next_u32, lcgStep]

theorem specOut_zero (s : Nat) : specOut s 0 = lcgStep s / 2 ^ 16 % 2 ^ 32 := by
  simp [specOut, specStates]

theorem specOut_shift (s : Nat) (k : Nat) : specOut (lcgStep s) k = specOut s (k + 1) := by
  simp only [specOut]
  rw [specStates_shift s (k + 1)]

theorem rngOutputs_length (K : Nat) : ∀ s : Nat, (rngOutputs ⟨s⟩ K).length = K := by
  induction K with
  | zero => intro s; rfl
  | succ K ih =>
    intro s
    rw [rngOutputs_succ, List.length_cons, ih (lcgStep s)]

theorem rngOutputs_get (K : Nat) :
    ∀ s k : Nat, k < K → (rngOutputs ⟨s⟩ K).get? k = some (specOut s k) := by
  induction K with
  | zero => intro s k h; omega
  | succ K ih =>
    intro s k hk
    rw [rngOutputs_succ]
    match k with
    | 0 => exact congrArg some (specOut_zero s).symm
    | k + 1 =>
      rw [List.get?_cons_succ]
      exact (ih (lcgStep s) k (by omega)).trans (congrArg some (specOut_shift s k))

/-- C4: `next_u32` advances the state by the LCG equation modulo `2^64` and
returns bits 16..48 of the new state (logical shift by 16 then truncation
to 32 bits); `Rng::new` maps seed 0 to the fixed non-zero constant
`0xDEADBEEFCAFEBABE` and any non-zero seed to itself; hence for a non-zero
seed `S` the list of the first `K` outputs has length `K` and its `k`-th
entry is exactly the value determined by those equations starting from
state `S`. -/
theorem c4_rng_sequence (r : Rng) (S K : Nat) (hS : S ≠ 0) :
    r.next_u32 = (lcgStep r.state / 2 ^ 16 % 2 ^ 32, ⟨lcgStep r.state⟩)
      ∧ Rng.new 0 = ⟨0xDEADBEEFCAFEBABE⟩
      ∧ Rng.new S = ⟨S⟩
      ∧ (rngOutputs (Rng.new S) K).length = K
      ∧ (∀ k, k < K → (rngOutputs (Rng.new S) K).get? k = some (specOut S k)) := by
  refine ⟨rfl, rfl, ?_, ?_, ?_⟩
  · simp [Rng.new, hS]
  · simp only [Rng.new, if_neg hS]
    exact rngOutputs_length K S
  · simp only [Rng.new, if_neg hS]
    exact fun k hk => rngOutputs_get K S k hk

theorem c4_rng_sequence_witness :
    (rngOutputs (Rng.new 7) 3).length = 3
      ∧ (∀ k, k < 3 → (rngOutputs (Rng.new 7) 3).get? k = some (specOut 7 k)) :=
  ⟨(c4_rng_sequence ⟨1⟩ 7 3 (by decide)).2.2.2.1,
    (c4_rng_sequence ⟨1⟩ 7 3 (by decide)).2.2.2.2⟩

/-- C5 counterexample: `chance 0` leaves the RNG state unchanged, while the
claim says every call advances the state exactly once (which would change
state 5 into `(5*1664525 + 1013904223) % 2^64`). -/
theorem c5_chance_counterexample :
    ((Rng.mk 5).chance 0).2 = Rng.mk 5 ∧ ((Rng.mk 5).next_u32).2 ≠ Rng.mk 5 := by
  constructor
  · rfl
  · decide

/-- C5 (amended): `chance pct` returns false for `pct = 0` and true for
`pct ≥ 100` without advancing the RNG state at all, and for `0 < pct < 100`
advances exactly once and returns `next_u32() % 100 < pct`. -/
theorem c5_chance_spec (r : Rng) (pct : Nat) :
    (pct = 0 → r.chance pct = (false, r))
      ∧ (100 ≤ pct → r.chance pct = (true, r))
      ∧ (0 < pct → pct < 100 →
          r.chance pct = (decide ((r.next_u32).1 % 100 < pct), (r.next_u32).2)) := by
  refine ⟨fun h0 => ?_, fun h100 => ?_, fun hpos hlt => ?_⟩
  · simp [Rng.chance, h0]
  · have : pct ≠ 0 := by omega
    simp [Rng.chance, this, h100]
  · have h0 : pct ≠ 0 := by omega
    have h1 : ¬ (100 ≤ pct) := by omega
    simp [Rng.chance, h0, h1]

theorem c5_chance_spec_witness : (Rng.mk 9).chance 0 = (false, Rng.mk 9) :=
  (c5_chance_spec ⟨9⟩ 0).1 rfl

/-! ## Element classification (free functions at the bottom of the source) -/

/-- `is_sand_like`. -/
def is_sand_like (e : Element) : Bool :=
  match e with
  | .Sand | .Gunpowder | .Ash | .Snow => true
  | _ => false

/-- `is_liquid`. -/
def is_liquid (e : Element) : Bool :=
  match e with
  | .Water | .SaltWater | .Oil | .Ethanol | .Acid | .Lava | .Mercury => true
  | _ => false

/-- `is_gas`. -/
def is_gas (e : Element) : Bool :=
  match e with
  | .Smoke | .Steam | .Gas | .ToxicGas | .Hydrogen | .Chlorine => true
  | _ => false

/-- `is_flammable`. -/
def is_flammable (e : Element) : Bool :=
  match e with
  | .Wood | .Plant | .Oil | .Ethanol | .Gunpowder | .Coal | .Seaweed => true
  | _ => false

/-- `is_dissolvable`. -/
def is_dissolvable (e : Element) : Bool :=
  match e with
  | .Sand | .Stone | .Glass | .Wood | .Plant | .Metal | .Wire | .Ash
  | .Coal | .Seaweed | .Dirt | .WetDirt => true
  | _ => false

/-- `density`. -/
def density (e : Element) : Int :=
  match e with
  | .Ethanol => 85
  | .Oil => 90
  | .Gas | .Hydrogen => 1
  | .Steam => 2
  | .Smoke => 3
  | .Chlorine => 5
  | .Water => 100
  | .SaltWater => 103
  | .Acid => 110
  | .Lava => 160
  | .Mercury => 200
  | _ => 999

/-- `is_hazard`. -/
def is_hazard (e : Element) : Bool :=
  match e with
  | .Fire | .Lava | .Acid | .ToxicGas | .Chlorine | .Lightning => true
  | _ => false

/-! ## World: core engine state -/

/-- `struct World { width, height, cells: Vec<Cell>, rng }`.  The flat
row-major buffer is modelled as a total function from flat indices to
cells; every source access is bounds-checked before indexing, so the
model reads/writes only indices `y*width + x` with `(x, y)` in bounds. -/
structure World where
  width : Int
  height : Int
  cells : Nat → Cell
  rng : Rng

/-- `World::new`: clamps negative dimensions to 0, all cells Empty. -/
def World.new (width height : Int) (seed : Nat) : World :=
  ⟨max width 0, max height 0, fun _ => cellDefault, Rng.new seed⟩

/-- `World::in_bounds`. -/
def World.in_bounds (w : World) (x y : Int) : Bool :=
  decide (0 ≤ x) && decide (x < w.width) && decide (0 ≤ y) && decide (y < w.height)

/-- `World::idx`: `(y as usize) * (width as usize) + (x as usize)`. -/
def World.idx (w : World) (x y : Int) : Nat :=
  y.toNat * w.width.toNat + x.toNat

/-- `World::get_cell`: Empty cell for out-of-bounds. -/
def World.get_cell (w : World) (x y : Int) : Cell :=
  if w.in_bounds x y then w.cells (w.idx x y) else cellDefault

/-- `World::get_cell_mut` returns `None` out of bounds; in bounds it hands
out a mutable reference, modelled as the flat index it aliases. -/
def World.get_cell_mut (w : World) (x y : Int) : Option Nat :=
  if w.in_bounds x y then some (w.idx x y) else none

/-- Write one flat slot of the buffer (`self.cells[i] = c`). -/
def World.setCell (w : World) (i : Nat) (c : Cell) : World :=
  { w with cells := fun j => if j = i then c else w.cells j }

/-- `self.cells.swap(i, j)`. -/
def World.swapCells (w : World) (i j : Nat) : World :=
  { w with cells := fun k => if k = i then w.cells j else if k = j then w.cells i else w.cells k }

/-- Replace the RNG field after a draw. -/
def World.withRng (w : World) (r : Rng) : World :=
  { w with rng := r }

/-- `powder_world_set_cell` from the C ABI layer: writes through
`get_cell_mut` and returns 1, or returns 0 leaving the world untouched. -/
def powder_world_set_cell (w : World) (x y : Int) (c : Cell) : World × Int :=
  match w.get_cell_mut x y with
  | some i => (w.setCell i c, 1)
  | none => (w, 0)

/-- C2: for every coordinate outside `[0,width) × [0,height)` — for any
grid size, 0×0 included — `get_cell` returns `{Empty, 0}`, `get_cell_mut`
returns none, and the exported `set_cell` returns 0 and leaves every cell
of the grid unchanged (the whole world is returned as-is); no accessor
panics (all model functions are total). -/
theorem c2_bounds_safety (w : World) (x y : Int) (c : Cell)
    (h : x < 0 ∨ w.width ≤ x ∨ y < 0 ∨ w.height ≤ y) :
    w.get_cell x y = cellDefault
      ∧ w.get_cell_mut x y = none
      ∧ powder_world_set_cell w x y c = (w, 0) := by
  have hb : w.in_bounds x y = false := by
    simp only [World.in_bounds, Bool.and_eq_false_iff, decide_eq_false_iff_not, not_le, not_lt]
    rcases h with h | h | h | h
    · exact Or.inl (Or.inl (Or.inl (by simpa using h)))
    · exact Or.inl (Or.inl (Or.inr (by simpa using h)))
    · exact Or.inl (Or.inr (by simpa using h))
    · exact Or.inr (by simpa using h)
  refine ⟨?_, ?_, ?_⟩
  · simp [World.get_cell, hb]
  · simp [World.get_cell_mut, hb]
  · simp [powder_world_set_cell, World.get_cell_mut, hb]

theorem c2_bounds_safety_witness :
    (World.new 0 0 1).get_cell 0 0 = cellDefault
      ∧ (World.new 0 0 1).get_cell_mut 0 0 = none
      ∧ powder_world_set_cell (World.new 0 0 1) 0 0 ⟨Element.Sand, 3⟩ = (World.new 0 0 1, 0) :=
  c2_bounds_safety (World.new 0 0 1) 0 0 ⟨Element.Sand, 3⟩ (Or.inr (Or.inl (by decide)))

/-! ## Placement and explosion -/

/-- `n` consecutive integers counting up from `a`. -/
def rangeIncGo (a : Int) : Nat → List Int
  | 0 => []
  | n + 1 => a :: rangeIncGo (a + 1) n

/-- The inclusive integer interval `[a, b]` as a list, in increasing order
(the iteration space of a Rust `a..=b` loop). -/
def rangeInc (a b : Int) : List Int :=
  rangeIncGo a (b - a + 1).toNat

/-- The iteration space of the nested loops `for dy in -r..=r { for dx in
-r..=r { .. } }`, as `(dx, dy)` pairs in iteration order (dy outer). -/
def squareOffsets (r : Int) : List (Int × Int) :=
  List.flatMap (rangeInc (-r) r) (fun dy => List.map (fun dx => (dx, dy)) (rangeInc (-r) r))

/-- The `while` loop of `place_lightning`: starting at row `y`, descend
while the cell below is Empty or gas and not past the bottom.  The loop
increases `y` while `y + 1 < height`, so `height.toNat` steps of fuel are
enough; the fuel argument only realizes termination. -/
def boltStop (w : World) (x : Int) : Nat → Int → Int
  | 0, y => y
  | f + 1, y =>
    if y + 1 < w.height then
      let below := (w.cells (w.idx x (y + 1))).elem
      if below ≠ Element.Empty ∧ is_gas below = false then y
      else boltStop w x f (y + 1)
    else y

/-- The fill loop of `place_lightning`: `for yy in cy..=y { cells[idx(x,yy)] =
Lightning, life 2 }`, over an explicit row list. -/
def fillBolt (cx : Int) (w : World) (L : List Int) : World :=
  L.foldl (fun acc yy => acc.setCell (acc.idx cx yy) ⟨Element.Lightning, 2⟩) w

/-- The tail of `place_lightning`: if the cell just below the bolt end is
in bounds and holds Water/SaltWater, raise its life to at least 8. -/
def boltCharge (cx y : Int) (w1 : World) : World :=
  if y + 1 < w1.height then
    let i := w1.idx cx (y + 1)
    let c := w1.cells i
    if c.elem = Element.Water ∨ c.elem = Element.SaltWater then
      w1.setCell i ⟨c.elem, max c.life 8⟩
    else w1
  else w1

/-- `World::place_lightning`: no-op out of bounds; else fill the column
from `cy` down to the stop row with Lightning (life 2), then raise the
charge of a Water/SaltWater cell just below the bolt end to at least 8. -/
def World.place_lightning (w : World) (cx cy : Int) : World :=
  if w.in_bounds cx cy = false then w
  else
    let y := boltStop w cx w.height.toNat cy
    boltCharge cx y (fillBolt cx w (rangeInc cy y))

/-- One iteration of the brush fill loops: skip outside the disc or out of
bounds, else overwrite the cell with `elem` and its initial life. -/
def brushCell (elem : Element) (cx cy r2 : Int) (w : World) (d : Int × Int) : World :=
  if d.1 * d.1 + d.2 * d.2 > r2 then w
  else
    let x := cx + d.1
    let y := cy + d.2
    if w.in_bounds x y then
      let life : Int := if elem = Element.Fire then 20 else if is_gas elem then 25 else 0
      w.setCell (w.idx x y) ⟨elem, life⟩
    else w

/-- `World::place_brush`: Lightning is routed to the bolt placement, any
other element fills the Euclidean disc of radius `rad`. -/
def World.place_brush (w : World) (cx cy rad : Int) (elem : Element) : World :=
  if elem = Element.Lightning then w.place_lightning cx cy
  else (squareOffsets rad).foldl (brushCell elem cx cy (rad * rad)) w

/-- The indestructible materials of the `match` arm in `explode` (the arm
that leaves the cell untouched). -/
abbrev explodeSkips (e : Element) : Prop :=
  e = Element.Wall ∨ e = Element.Stone ∨ e = Element.Glass
    ∨ e = Element.Metal ∨ e = Element.Wire ∨ e = Element.Ice

/-- One iteration of the explosion loops: an in-disc, in-bounds cell that
is not Wall/Stone/Glass/Metal/Wire/Ice rolls 1..=100 and becomes Fire
(life 15 + roll in 0..=10), Smoke (life 20) or Gas (life 20). -/
def explodeCell (cx cy r2 : Int) (w : World) (d : Int × Int) : World :=
  if d.1 * d.1 + d.2 * d.2 > r2 then w
  else
    let x := cx + d.1
    let y := cy + d.2
    if w.in_bounds x y then
      let i := w.idx x y
      if explodeSkips (w.cells i).elem then w
      else
        let p := w.rng.range_i32 1 100
        if p.1 ≤ 50 then
          let q := p.2.range_i32 0 10
          (w.withRng q.2).setCell i ⟨Element.Fire, 15 + q.1⟩
        else if p.1 ≤ 80 then
          (w.withRng p.2).setCell i ⟨Element.Smoke, 20⟩
        else
          (w.withRng p.2).setCell i ⟨Element.Gas, 20⟩
    else w

/-- `World::explode`. -/
def World.explode (w : World) (cx cy r : Int) : World :=
  (squareOffsets r).foldl (explodeCell cx cy (r * r)) w

/-! ## Basic lemmas about the grid store -/

theorem in_bounds_iff (w : World) (x y : Int) :
    w.in_bounds x y = true ↔ 0 ≤ x ∧ x < w.width ∧ 0 ≤ y ∧ y < w.height := by
  simp [World.in_bounds, and_assoc]

theorem setCell_width (w : World) (i : Nat) (c : Cell) : (w.setCell i c).width = w.width := rfl

theorem setCell_height (w : World) (i : Nat) (c : Cell) : (w.setCell i c).height = w.height := rfl

theorem setCell_rng (w : World) (i : Nat) (c : Cell) : (w.setCell i c).rng = w.rng := rfl

theorem cells_setCell (w : World) (i : Nat) (c : Cell) (j : Nat) :
    (w.setCell i c).cells j = if j = i then c else w.cells j := rfl

theorem cells_setCell_ne (w : World) (i : Nat) (c : Cell) (j : Nat) (h : j ≠ i) :
    (w.setCell i c).cells j = w.cells j := by
  simp [cells_setCell, h]

theorem withRng_width (w : World) (r : Rng) : (w.withRng r).width = w.width := rfl

theorem withRng_height (w : World) (r : Rng) : (w.withRng r).height = w.height := rfl

theorem withRng_cells (w : World) (r : Rng) : (w.withRng r).cells = w.cells := rfl

theorem idx_inj (w : World) {x1 y1 x2 y2 : Int} (h1 : w.in_bounds x1 y1 = true)
    (h2 : w.in_bounds x2 y2 = true) (heq : w.idx x1 y1 = w.idx x2 y2) :
    x1 = x2 ∧ y1 = y2 := by
  rw [in_bounds_iff] at h1 h2
  obtain ⟨hx1, hx1w, hy1, hy1h⟩ := h1
  obtain ⟨hx2, hx2w, hy2, hy2h⟩ := h2
  simp only [World.idx] at heq
  have hxw1 : x1.toNat < w.width.toNat := by omega
  have hxw2 : x2.toNat < w.width.toNat := by omega
  have hW : 0 < w.width.toNat := lt_of_le_of_lt (Nat.zero_le _) hxw1
  have hx : x1.toNat = x2.toNat := by
    have hmod := congrArg (fun n => n % w.width.toNat) heq
    simp only at hmod
    rw [Nat.mul_add_mod', Nat.mul_add_mod', Nat.mod_eq_of_lt hxw1, Nat.mod_eq_of_lt hxw2] at hmod
    exact hmod
  have hy : y1.toNat = y2.toNat := by
    have hdiv := congrArg (fun n => n / w.width.toNat) heq
    simp only at hdiv
    rw [Nat.mul_comm y1.toNat, Nat.mul_comm y2.toNat, Nat.mul_add_div hW,
      Nat.mul_add_div hW, Nat.div_eq_of_lt hxw1, Nat.div_eq_of_lt hxw2] at hdiv
    omega
  omega

theorem mem_rangeIncGo : ∀ (n : Nat) (a x : Int), x ∈ rangeIncGo a n ↔ a ≤ x ∧ x < a + (n : Int) := by
  intro n
  induction n with
  | zero =>
    intro a x
    simp only [rangeIncGo, List.not_mem_nil, false_iff]
    omega
  | succ n ih =>
    intro a x
    simp only [rangeIncGo, List.mem_cons, ih (a + 1)]
    constructor
    · rintro (rfl | ⟨h1, h2⟩) <;> constructor <;> omega
    · intro ⟨h1, h2⟩
      by_cases hx : x = a
      · exact Or.inl hx
      · exact Or.inr ⟨by omega, by omega⟩

theorem mem_rangeInc {lo hi a : Int} : a ∈ rangeInc lo hi ↔ lo ≤ a ∧ a ≤ hi := by
  rw [rangeInc, mem_rangeIncGo]
  omega

theorem rangeIncGo_nodup : ∀ (n : Nat) (a : Int), (rangeIncGo a n).Nodup := by
  intro n
  induction n with
  | zero => intro a; simp [rangeIncGo]
  | succ n ih =>
    intro a
    rw [rangeIncGo, List.nodup_cons]
    refine ⟨fun h => ?_, ih (a + 1)⟩
    rw [mem_rangeIncGo] at h
    omega

theorem rangeInc_nodup (lo hi : Int) : (rangeInc lo hi).Nodup := rangeIncGo_nodup _ _

theorem mem_squareOffsets {r dx dy : Int} :
    (dx, dy) ∈ squareOffsets r ↔ (-r ≤ dx ∧ dx ≤ r) ∧ (-r ≤ dy ∧ dy ≤ r) := by
  simp only [squareOffsets, List.mem_flatMap, List.mem_map, Prod.mk.injEq]
  constructor
  · rintro ⟨dy', hdy, dx', hdx, rfl, rfl⟩
    exact ⟨mem_rangeInc.mp hdx, mem_rangeInc.mp hdy⟩
  · intro ⟨h1, h2⟩
    exact ⟨dy, mem_rangeInc.mpr h2, dx, mem_rangeInc.mpr h1, rfl, rfl⟩

theorem squareOffsets_nodup (r : Int) : (squareOffsets r).Nodup := by
  rw [squareOffsets, List.nodup_flatMap]
  constructor
  · intro dy _
    refine List.Nodup.map ?_ (rangeInc_nodup _ _)
    intro a b h
    exact ((Prod.mk.injEq _ _ _ _).mp h).1
  · refine (rangeInc_nodup (-r) r).pairwise_of_forall_ne ?_
    intro a _ b _ hne
    simp only [Function.onFun, List.disjoint_left, List.mem_map]
    rintro p ⟨xa, hxa, rfl⟩ ⟨xb, hxb, hp⟩
    exact hne ((Prod.mk.injEq _ _ _ _).mp hp).2.symm

/-! ## place_lightning: descent, fill, charge -/

theorem boltStop_ge (w : World) (x : Int) : ∀ (f : Nat) (y : Int), y ≤ boltStop w x f y := by
  intro f
  induction f with
  | zero => intro y; exact le_refl y
  | succ f ih =>
    intro y
    simp only [boltStop]
    split
    · split
      · exact le_refl y
      · exact le_trans (by omega) (ih (y + 1))
    · exact le_refl y

theorem boltStop_lt (w : World) (x : Int) :
    ∀ (f : Nat) (y : Int), y < w.height → boltStop w x f y < w.height := by
  intro f
  induction f with
  | zero => intro y hy; exact hy
  | succ f ih =>
    intro y hy
    simp only [boltStop]
    split
    · split
      · exact hy
      · exact ih (y + 1) (by omega)
    · exact hy

theorem fillBolt_width (cx : Int) : ∀ (L : List Int) (w : World), (fillBolt cx w L).width = w.width := by
  intro L
  induction L with
  | nil => intro w; rfl
  | cons yy L ih => intro w; exact ih _

theorem fillBolt_height (cx : Int) : ∀ (L : List Int) (w : World), (fillBolt cx w L).height = w.height := by
  intro L
  induction L with
  | nil => intro w; rfl
  | cons yy L ih => intro w; exact ih _

theorem fillBolt_rng (cx : Int) : ∀ (L : List Int) (w : World), (fillBolt cx w L).rng = w.rng := by
  intro L
  induction L with
  | nil => intro w; rfl
  | cons yy L ih => intro w; exact ih _

theorem map_idx_setCell (w : World) (i : Nat) (c : Cell) (cx : Int) (L : List Int) :
    List.map ((w.setCell i c).idx cx) L = List.map (w.idx cx) L := rfl

theorem fillBolt_cells (cx : Int) :
    ∀ (L : List Int) (w : World) (i : Nat),
      (fillBolt cx w L).cells i
        = if i ∈ List.map (w.idx cx) L then (⟨Element.Lightning, 2⟩ : Cell) else w.cells i := by
  intro L
  induction L with
  | nil => intro w i; simp [fillBolt]
  | cons yy L ih =>
    intro w i
    have hstep : fillBolt cx w (yy :: L)
        = fillBolt cx (w.setCell (w.idx cx yy) ⟨Element.Lightning, 2⟩) L := rfl
    rw [hstep, ih, map_idx_setCell]
    by_cases hmem : i ∈ List.map (w.idx cx) L
    · rw [if_pos hmem, if_pos]
      simp only [List.map_cons, List.mem_cons]
      exact Or.inr hmem
    · rw [if_neg hmem, cells_setCell]
      by_cases hyy : i = w.idx cx yy
      · rw [if_pos hyy, if_pos]
        simp only [List.map_cons, List.mem_cons]
        exact Or.inl hyy
      · rw [if_neg hyy, if_neg]
        simp only [List.map_cons, List.mem_cons]
        push_neg
        exact ⟨hyy, hmem⟩

theorem boltCharge_width (cx y : Int) (w1 : World) : (boltCharge cx y w1).width = w1.width := by
  simp only [boltCharge]
  split
  · split
    · rfl
    · rfl
  · rfl

theorem boltCharge_height (cx y : Int) (w1 : World) : (boltCharge cx y w1).height = w1.height := by
  simp only [boltCharge]
  split
  · split
    · rfl
    · rfl
  · rfl

theorem boltCharge_cells_ne (cx y : Int) (w1 : World) (i : Nat) (h : i ≠ w1.idx cx (y + 1)) :
    (boltCharge cx y w1).cells i = w1.cells i := by
  simp only [boltCharge]
  split
  · split
    · exact cells_setCell_ne _ _ _ _ h
    · rfl
  · rfl

theorem get_cell_in_bounds (w : World) (x y : Int) (h : w.in_bounds x y = true) :
    w.get_cell x y = w.cells (w.idx x y) := by
  rw [World.get_cell, if_pos h]

theorem get_cell_oob (w : World) (x y : Int) (h : ¬ w.in_bounds x y = true) :
    w.get_cell x y = cellDefault := by
  rw [World.get_cell, if_neg h]

/-- Full per-cell description of the charge step of `place_lightning`. -/
theorem boltCharge_cells (cx y : Int) (w1 : World) (i : Nat) :
    (boltCharge cx y w1).cells i =
      if y + 1 < w1.height ∧ i = w1.idx cx (y + 1)
          ∧ ((w1.cells (w1.idx cx (y + 1))).elem = Element.Water
              ∨ (w1.cells (w1.idx cx (y + 1))).elem = Element.SaltWater) then
        ⟨(w1.cells (w1.idx cx (y + 1))).elem, max (w1.cells (w1.idx cx (y + 1))).life 8⟩
      else w1.cells i := by
  simp only [boltCharge]
  by_cases h1 : y + 1 < w1.height
  · rw [if_pos h1]
    by_cases h3 : (w1.cells (w1.idx cx (y + 1))).elem = Element.Water
        ∨ (w1.cells (w1.idx cx (y + 1))).elem = Element.SaltWater
    · rw [if_pos h3, cells_setCell]
      by_cases h2 : i = w1.idx cx (y + 1)
      · rw [if_pos h2, if_pos ⟨h1, h2, h3⟩]
      · rw [if_neg h2, if_neg]
        intro hcon
        exact h2 hcon.2.1
    · rw [if_neg h3, if_neg]
      intro hcon
      exact h3 hcon.2.2
  · rw [if_neg h1, if_neg]
    intro hcon
    exact h1 hcon.1

/-- Characterization of the descent loop: with `N` Empty/gas cells directly
below the start and a stop just after them (solid cell or grid bottom), the
loop stops exactly at row `cy + N`. -/
theorem boltStop_eq (w : World) (cx : Int) :
    ∀ (N : Nat) (cy : Int) (fuel : Nat), N ≤ fuel →
      (∀ i : Nat, 1 ≤ i → i ≤ N →
        ((w.cells (w.idx cx (cy + i))).elem = Element.Empty
          ∨ is_gas (w.cells (w.idx cx (cy + i))).elem = true)) →
      cy + N < w.height →
      (w.height ≤ cy + N + 1
        ∨ ((w.cells (w.idx cx (cy + N + 1))).elem ≠ Element.Empty
            ∧ is_gas (w.cells (w.idx cx (cy + N + 1))).elem = false)) →
      boltStop w cx fuel cy = cy + N := by
  intro N
  induction N with
  | zero =>
    intro cy fuel _ _ _ hstop
    match fuel with
    | 0 => simp [boltStop]
    | f + 1 =>
      simp only [boltStop]
      rcases hstop with hstop | hstop
      · rw [if_neg (by omega)]
        omega
      · by_cases hlt : cy + 1 < w.height
        · rw [if_pos hlt, if_pos]
          · omega
          · have heq : cy + (0 : Nat) + 1 = cy + 1 := by omega
            rw [heq] at hstop
            exact hstop
        · rw [if_neg hlt]
          omega
  | succ N ih =>
    intro cy fuel hfuel hbelow hend hstop
    match fuel with
    | 0 => omega
    | f + 1 =>
      simp only [boltStop]
      have hlt : cy + 1 < w.height := by
        have : (((N : Nat) + 1 : Nat) : Int) = (N : Int) + 1 := by push_cast; ring
        omega
      rw [if_pos hlt, if_neg]
      · have h1 : cy + 1 + (N : Int) = cy + ((N + 1 : Nat) : Int) := by push_cast; ring
        have hrec := ih (cy + 1) f (by omega)
          (fun i hi1 hiN => by
            have heq : cy + 1 + (i : Int) = cy + ((i + 1 : Nat) : Int) := by push_cast; ring
            rw [heq]
            exact hbelow (i + 1) (by omega) (by omega))
          (by rw [h1]; exact hend)
          (by rw [h1]; exact hstop)
        rw [hrec, h1]
      · have hb1 := hbelow 1 (le_refl 1) (by omega)
        have heq : cy + ((1 : Nat) : Int) = cy + 1 := by push_cast; ring
        rw [heq] at hb1
        rcases hb1 with hb1 | hb1
        · intro hcon
          exact hcon.1 hb1
        · intro hcon
          rw [hb1] at hcon
          exact Bool.noConfusion hcon.2

theorem in_bounds_congr {w1 w : World} (hw : w1.width = w.width) (hh : w1.height = w.height)
    (x y : Int) : w1.in_bounds x y = w.in_bounds x y := by
  simp only [World.in_bounds, hw, hh]

theorem idx_congr {w1 w : World} (hw : w1.width = w.width) (x y : Int) :
    w1.idx x y = w.idx x y := by
  simp only [World.idx, hw]

/-- C7: for an in-bounds start `(cx, cy)` with exactly `N` Empty/gas rows
directly below it (a non-empty non-gas cell or the grid bottom just after
them), `place_lightning` fills exactly the `N+1` cells from `(cx, cy)` down
to `(cx, cy+N)` with Lightning life 2; a Water/SaltWater cell immediately
below the bolt end has its life raised to `max life 8` (so to at least 8
and never decreased, its material kept); every other cell is unchanged. -/
theorem c7_lightning_bolt (w : World) (cx cy : Int) (N : Nat)
    (hb : w.in_bounds cx cy = true)
    (hbelow : ∀ i : Nat, 1 ≤ i → i ≤ N →
      ((w.get_cell cx (cy + i)).elem = Element.Empty
        ∨ is_gas (w.get_cell cx (cy + i)).elem = true))
    (hend : cy + N < w.height)
    (hstop : w.height ≤ cy + N + 1
      ∨ ((w.get_cell cx (cy + N + 1)).elem ≠ Element.Empty
          ∧ is_gas (w.get_cell cx (cy + N + 1)).elem = false)) :
    (∀ i : Nat, i ≤ N →
        (w.place_lightning cx cy).get_cell cx (cy + i) = ⟨Element.Lightning, 2⟩)
      ∧ (((w.get_cell cx (cy + N + 1)).elem = Element.Water
            ∨ (w.get_cell cx (cy + N + 1)).elem = Element.SaltWater) →
          (w.place_lightning cx cy).get_cell cx (cy + N + 1)
            = ⟨(w.get_cell cx (cy + N + 1)).elem, max (w.get_cell cx (cy + N + 1)).life 8⟩)
      ∧ (((w.get_cell cx (cy + N + 1)).elem ≠ Element.Water
            ∧ (w.get_cell cx (cy + N + 1)).elem ≠ Element.SaltWater) →
          (w.place_lightning cx cy).get_cell cx (cy + N + 1) = w.get_cell cx (cy + N + 1))
      ∧ (∀ x y : Int, w.in_bounds x y = true →
          (x ≠ cx ∨ y < cy ∨ cy + N < y) → ¬(x = cx ∧ y = cy + N + 1) →
          (w.place_lightning cx cy).get_cell x y = w.get_cell x y) := by
  have hbb := (in_bounds_iff w cx cy).mp hb
  have hrowin : ∀ i : Nat, i ≤ N → w.in_bounds cx (cy + i) = true := by
    intro i hi
    rw [in_bounds_iff]
    refine ⟨hbb.1, hbb.2.1, by omega, by omega⟩
  have hbelowC : ∀ i : Nat, 1 ≤ i → i ≤ N →
      ((w.cells (w.idx cx (cy + i))).elem = Element.Empty
        ∨ is_gas (w.cells (w.idx cx (cy + i))).elem = true) := by
    intro i h1 h2
    have h := hbelow i h1 h2
    rwa [get_cell_in_bounds w cx (cy + i) (hrowin i h2)] at h
  have hstopC : w.height ≤ cy + N + 1
      ∨ ((w.cells (w.idx cx (cy + N + 1))).elem ≠ Element.Empty
          ∧ is_gas (w.cells (w.idx cx (cy + N + 1))).elem = false) := by
    rcases hstop with h | h
    · exact Or.inl h
    · by_cases hin : w.in_bounds cx (cy + N + 1) = true
      · rw [get_cell_in_bounds w cx (cy + N + 1) hin] at h
        exact Or.inr h
      · rw [get_cell_oob w cx (cy + N + 1) hin] at h
        exact absurd rfl h.1
  have hy : boltStop w cx w.height.toNat cy = cy + N :=
    boltStop_eq w cx N cy w.height.toNat (by omega) hbelowC hend hstopC
  have hpl : w.place_lightning cx cy
      = boltCharge cx (cy + N) (fillBolt cx w (rangeInc cy (cy + N))) := by
    rw [World.place_lightning, hb, if_neg (by simp), hy]
  set w1 := fillBolt cx w (rangeInc cy (cy + N)) with hw1
  have hw1w : w1.width = w.width := fillBolt_width cx _ w
  have hw1h : w1.height = w.height := fillBolt_height cx _ w
  have hbcw : (boltCharge cx (cy + N) w1).width = w.width := by
    rw [boltCharge_width, hw1w]
  have hbch : (boltCharge cx (cy + N) w1).height = w.height := by
    rw [boltCharge_height, hw1h]
  -- cells of w1 at any in-bounds position not in the bolt column are unchanged
  have hfb : ∀ x y : Int, w.in_bounds x y = true → (x ≠ cx ∨ y < cy ∨ cy + N < y) →
      w1.cells (w.idx x y) = w.cells (w.idx x y) := by
    intro x y hin hout
    rw [hw1, fillBolt_cells, if_neg]
    intro hmem
    obtain ⟨yy, hyy, heq⟩ := List.mem_map.mp hmem
    rw [mem_rangeInc] at hyy
    have hyyin : w.in_bounds cx yy = true := by
      rw [in_bounds_iff]
      exact ⟨hbb.1, hbb.2.1, by omega, by omega⟩
    have := idx_inj w hyyin hin heq
    rcases hout with h | h | h
    · exact h this.1.symm
    · omega
    · omega
  -- cells of w1 on the bolt are Lightning
  have hfl : ∀ i : Nat, i ≤ N → w1.cells (w.idx cx (cy + i)) = ⟨Element.Lightning, 2⟩ := by
    intro i hi
    rw [hw1, fillBolt_cells, if_pos]
    exact List.mem_map.mpr ⟨cy + i, mem_rangeInc.mpr ⟨by omega, by omega⟩, rfl⟩
  refine ⟨?_, ?_, ?_, ?_⟩
  · -- the bolt cells
    intro i hi
    have hin : w.in_bounds cx (cy + i) = true := hrowin i hi
    rw [hpl, get_cell_in_bounds _ cx (cy + i) (by rw [in_bounds_congr hbcw hbch]; exact hin),
      idx_congr hbcw, boltCharge_cells, if_neg, hfl i hi]
    intro hcon
    have hlt : cy + N + 1 < w.height := by rw [hw1h] at hcon; exact hcon.1
    have hin2 : w.in_bounds cx (cy + N + 1) = true := by
      rw [in_bounds_iff]
      exact ⟨hbb.1, hbb.2.1, by omega, hlt⟩
    have heq : w.idx cx (cy + i) = w.idx cx (cy + N + 1) := by
      have h2 := hcon.2.1
      rwa [idx_congr hw1w] at h2
    have := (idx_inj w hin hin2 heq).2
    omega
  · -- charged water below the bolt end
    intro hw'
    have hin : w.in_bounds cx (cy + N + 1) = true := by
      by_contra hc
      rw [get_cell_oob w cx (cy + N + 1) hc] at hw'
      rcases hw' with h | h <;> exact Element.noConfusion h
    have hlt : cy + N + 1 < w.height := ((in_bounds_iff w cx (cy + N + 1)).mp hin).2.2.2
    have hfbe : w1.cells (w.idx cx (cy + N + 1)) = w.cells (w.idx cx (cy + N + 1)) :=
      hfb cx (cy + N + 1) hin (Or.inr (Or.inr (by omega)))
    have hgc := get_cell_in_bounds w cx (cy + N + 1) hin
    rw [hpl, get_cell_in_bounds _ cx (cy + N + 1) (by rw [in_bounds_congr hbcw hbch]; exact hin),
      idx_congr hbcw, boltCharge_cells, if_pos, idx_congr hw1w, hfbe, hgc]
    refine ⟨by rw [hw1h]; exact hlt, (idx_congr hw1w cx (cy + N + 1)).symm, ?_⟩
    rw [idx_congr hw1w, hfbe, ← hgc]
    exact hw'
  · -- uncharged below-end cell
    intro hnw
    by_cases hin : w.in_bounds cx (cy + N + 1) = true
    · have hfbe : w1.cells (w.idx cx (cy + N + 1)) = w.cells (w.idx cx (cy + N + 1)) :=
        hfb cx (cy + N + 1) hin (Or.inr (Or.inr (by omega)))
      have hgc := get_cell_in_bounds w cx (cy + N + 1) hin
      rw [hpl, get_cell_in_bounds _ cx (cy + N + 1) (by rw [in_bounds_congr hbcw hbch]; exact hin),
        idx_congr hbcw, boltCharge_cells, if_neg, hfbe, ← hgc]
      intro hcon
      have h3 := hcon.2.2
      rw [idx_congr hw1w, hfbe, ← hgc] at h3
      rcases h3 with h | h
      · exact hnw.1 h
      · exact hnw.2 h
    · rw [hpl, get_cell_oob _ cx (cy + N + 1) (by rw [in_bounds_congr hbcw hbch]; exact hin),
        get_cell_oob w cx (cy + N + 1) hin]
  · -- all other cells unchanged
    intro x y hin hout hne
    rw [hpl, get_cell_in_bounds _ x y (by rw [in_bounds_congr hbcw hbch]; exact hin),
      idx_congr hbcw, boltCharge_cells, if_neg, hfb x y hin hout, get_cell_in_bounds w x y hin]
    intro hcon
    have hlt : cy + N + 1 < w.height := by rw [hw1h] at hcon; exact hcon.1
    have hin2 : w.in_bounds cx (cy + N + 1) = true := by
      rw [in_bounds_iff]
      exact ⟨hbb.1, hbb.2.1, by omega, hlt⟩
    have heq : w.idx x y = w.idx cx (cy + N + 1) := by
      have h2 := hcon.2.1
      rwa [idx_congr hw1w] at h2
    exact hne (idx_inj w hin hin2 heq)

/-- A 1×4 column: rows 0 and 1 Empty, row 2 Water (life 3), row 3 Empty. -/
def lightningW7 : World :=
  ⟨1, 4, fun i => if i = 2 then ⟨Element.Water, 3⟩ else cellDefault, ⟨1⟩⟩

theorem c7_lightning_bolt_witness :
    (lightningW7.place_lightning 0 0).get_cell 0 1 = ⟨Element.Lightning, 2⟩
      ∧ (lightningW7.place_lightning 0 0).get_cell 0 2 = ⟨Element.Water, 8⟩
      ∧ (lightningW7.place_lightning 0 0).get_cell 0 3 = lightningW7.get_cell 0 3 := by
  have h := c7_lightning_bolt lightningW7 0 0 1 (by decide)
    (fun i h1 h2 => by
      have hi : i = 1 := by omega
      subst hi
      exact Or.inl (by decide))
    (by decide)
    (Or.inr (by decide))
  exact ⟨h.1 1 (le_refl 1), h.2.1 (Or.inl (by decide)),
    h.2.2.2 0 3 (by decide) (Or.inr (Or.inr (by decide))) (by decide)⟩

/-- C10: `place_lightning` with an out-of-bounds start leaves the world
unchanged, and with an in-bounds start it always overwrites the start cell
itself with Lightning (life 2) regardless of its material — the Empty/gas
test applies only to cells below the start. -/
theorem c10_lightning_start (w : World) (cx cy : Int) :
    (w.in_bounds cx cy = false → w.place_lightning cx cy = w)
      ∧ (w.in_bounds cx cy = true →
          (w.place_lightning cx cy).get_cell cx cy = ⟨Element.Lightning, 2⟩) := by
  constructor
  · intro h
    simp [World.place_lightning, h]
  · intro hb
    have hbb := (in_bounds_iff w cx cy).mp hb
    have hpl : w.place_lightning cx cy
        = boltCharge cx (boltStop w cx w.height.toNat cy)
            (fillBolt cx w (rangeInc cy (boltStop w cx w.height.toNat cy))) := by
      simp [World.place_lightning, hb]
    set y := boltStop w cx w.height.toNat cy with hy
    have hcyy : cy ≤ y := boltStop_ge w cx w.height.toNat cy
    have hyh : y < w.height := boltStop_lt w cx w.height.toNat cy (by omega)
    set w1 := fillBolt cx w (rangeInc cy y) with hw1
    have hw1w : w1.width = w.width := fillBolt_width cx _ w
    have hw1h : w1.height = w.height := fillBolt_height cx _ w
    have hb2 : (boltCharge cx y w1).in_bounds cx cy = true := by
      rw [in_bounds_iff]
      rw [boltCharge_width, boltCharge_height, hw1w, hw1h]
      exact hbb
    -- the start row is in the filled range
    have hmem : w.idx cx cy ∈ List.map (w.idx cx) (rangeInc cy y) :=
      List.mem_map.mpr ⟨cy, mem_rangeInc.mpr ⟨le_refl cy, hcyy⟩, rfl⟩
    rw [hpl]
    have hcells : (boltCharge cx y w1).cells (w.idx cx cy) = w1.cells (w.idx cx cy) := by
      by_cases hlt : y + 1 < w1.height
      · refine boltCharge_cells_ne cx y w1 _ ?_
        intro h
        have hidx : w1.idx cx (y + 1) = w.idx cx (y + 1) := by
          simp only [World.idx, hw1w]
        rw [hidx] at h
        have hin : w.in_bounds cx (y + 1) = true := by
          rw [in_bounds_iff]
          exact ⟨hbb.1, hbb.2.1, by omega, by rw [hw1h] at hlt; omega⟩
        have := (idx_inj w hb hin h).2
        omega
      · simp only [boltCharge, if_neg hlt]
    have hfill : w1.cells (w.idx cx cy) = ⟨Element.Lightning, 2⟩ := by
      rw [hw1, fillBolt_cells, if_pos hmem]
    have hidx2 : (boltCharge cx y w1).idx cx cy = w.idx cx cy := by
      simp only [World.idx]
      rw [boltCharge_width, hw1w]
    rw [World.get_cell, if_pos hb2, hidx2, hcells, hfill]

/-! ## explode: per-cell outcome -/

theorem range_i32_bounds (r : Rng) (lo hi : Int) (h : lo ≤ hi) :
    lo ≤ (r.range_i32 lo hi).1 ∧ (r.range_i32 lo hi).1 ≤ hi := by
  simp only [Rng.range_i32]
  have hmax : max (hi - lo + 1) 1 = hi - lo + 1 := by omega
  rw [hmax]
  have hpos : 0 < (hi - lo + 1).toNat := by omega
  have hlt : (r.next_u32).1 % (hi - lo + 1).toNat < (hi - lo + 1).toNat :=
    Nat.mod_lt _ hpos
  omega

/-- The outcome the spec prescribes for a destructible cell caught in an
explosion: one roll in 1..=100; at most 50 it burns (Fire, life 15 plus a
uniform 0..=10), at most 80 it smokes (Smoke, life 20), else Gas (life 20). -/
def explodePost (new : Cell) : Prop :=
  ∃ roll : Int, 1 ≤ roll ∧ roll ≤ 100 ∧
    ((roll ≤ 50 ∧ new.elem = Element.Fire
        ∧ ∃ k : Int, 0 ≤ k ∧ k ≤ 10 ∧ new.life = 15 + k)
      ∨ (50 < roll ∧ roll ≤ 80 ∧ new = ⟨Element.Smoke, 20⟩)
      ∨ (80 < roll ∧ new = ⟨Element.Gas, 20⟩))

theorem explodeCell_width (cx cy r2 : Int) (w : World) (d : Int × Int) :
    (explodeCell cx cy r2 w d).width = w.width := by
  simp only [explodeCell]
  by_cases h1 : d.1 * d.1 + d.2 * d.2 > r2
  · rw [if_pos h1]
  · rw [if_neg h1]
    by_cases h2 : w.in_bounds (cx + d.1) (cy + d.2) = true
    · rw [if_pos h2]
      by_cases h3 : explodeSkips (w.cells (w.idx (cx + d.1) (cy + d.2))).elem
      · rw [if_pos h3]
      · rw [if_neg h3]
        by_cases h4 : (w.rng.range_i32 1 100).1 ≤ 50
        · rw [if_pos h4, setCell_width, withRng_width]
        · rw [if_neg h4]
          by_cases h5 : (w.rng.range_i32 1 100).1 ≤ 80
          · rw [if_pos h5, setCell_width, withRng_width]
          · rw [if_neg h5, setCell_width, withRng_width]
    · rw [if_neg h2]

theorem explodeCell_height (cx cy r2 : Int) (w : World) (d : Int × Int) :
    (explodeCell cx cy r2 w d).height = w.height := by
  simp only [explodeCell]
  by_cases h1 : d.1 * d.1 + d.2 * d.2 > r2
  · rw [if_pos h1]
  · rw [if_neg h1]
    by_cases h2 : w.in_bounds (cx + d.1) (cy + d.2) = true
    · rw [if_pos h2]
      by_cases h3 : explodeSkips (w.cells (w.idx (cx + d.1) (cy + d.2))).elem
      · rw [if_pos h3]
      · rw [if_neg h3]
        by_cases h4 : (w.rng.range_i32 1 100).1 ≤ 50
        · rw [if_pos h4, setCell_height, withRng_height]
        · rw [if_neg h4]
          by_cases h5 : (w.rng.range_i32 1 100).1 ≤ 80
          · rw [if_pos h5, setCell_height, withRng_height]
          · rw [if_neg h5, setCell_height, withRng_height]
    · rw [if_neg h2]

theorem explodeCell_cells_other (cx cy r2 : Int) (w : World) (d : Int × Int) (j : Nat)
    (h : w.in_bounds (cx + d.1) (cy + d.2) = true → j ≠ w.idx (cx + d.1) (cy + d.2)) :
    (explodeCell cx cy r2 w d).cells j = w.cells j := by
  simp only [explodeCell]
  split
  · rfl
  · split
    · rename_i hin
      have hj := h hin
      split
      · rfl
      · split
        · exact cells_setCell_ne _ _ _ _ hj
        · split
          · exact cells_setCell_ne _ _ _ _ hj
          · exact cells_setCell_ne _ _ _ _ hj
    · rfl

theorem explodeCell_at_skip (cx cy r2 : Int) (w : World) (d : Int × Int)
    (hskip : explodeSkips (w.cells (w.idx (cx + d.1) (cy + d.2))).elem) :
    explodeCell cx cy r2 w d = w := by
  simp only [explodeCell]
  by_cases h1 : d.1 * d.1 + d.2 * d.2 > r2
  · rw [if_pos h1]
  · rw [if_neg h1]
    by_cases h2 : w.in_bounds (cx + d.1) (cy + d.2) = true
    · rw [if_pos h2, if_pos hskip]
    · rw [if_neg h2]

theorem explodeCell_at_hit (cx cy r2 : Int) (w : World) (d : Int × Int)
    (hdisc : ¬(d.1 * d.1 + d.2 * d.2 > r2))
    (hin : w.in_bounds (cx + d.1) (cy + d.2) = true)
    (hnd : ¬ explodeSkips (w.cells (w.idx (cx + d.1) (cy + d.2))).elem) :
    explodePost ((explodeCell cx cy r2 w d).cells (w.idx (cx + d.1) (cy + d.2))) := by
  simp only [explodeCell]
  rw [if_neg hdisc, if_pos hin, if_neg hnd]
  have hroll := range_i32_bounds w.rng 1 100 (by omega)
  by_cases h50 : (w.rng.range_i32 1 100).1 ≤ 50
  · rw [if_pos h50]
    have hk := range_i32_bounds (w.rng.range_i32 1 100).2 0 10 (by omega)
    refine ⟨(w.rng.range_i32 1 100).1, hroll.1, hroll.2,
      Or.inl ⟨h50, ?_, ((w.rng.range_i32 1 100).2.range_i32 0 10).1, hk.1, hk.2, ?_⟩⟩
    · rw [cells_setCell, if_pos rfl]
    · rw [cells_setCell, if_pos rfl]
  · rw [if_neg h50]
    by_cases h80 : (w.rng.range_i32 1 100).1 ≤ 80
    · rw [if_pos h80]
      refine ⟨(w.rng.range_i32 1 100).1, hroll.1, hroll.2, Or.inr (Or.inl ⟨by omega, h80, ?_⟩)⟩
      rw [cells_setCell, if_pos rfl]
    · rw [if_neg h80]
      refine ⟨(w.rng.range_i32 1 100).1, hroll.1, hroll.2, Or.inr (Or.inr ⟨by omega, ?_⟩)⟩
      rw [cells_setCell, if_pos rfl]

theorem disc_offset_bounds {dx dy r : Int} (hr : 0 ≤ r) (h : dx * dx + dy * dy ≤ r * r) :
    (-r ≤ dx ∧ dx ≤ r) ∧ (-r ≤ dy ∧ dy ≤ r) := by
  refine ⟨⟨?_, ?_⟩, ?_, ?_⟩ <;>
    nlinarith [mul_self_nonneg dx, mul_self_nonneg dy, mul_self_nonneg (dx + r),
      mul_self_nonneg (dx - r), mul_self_nonneg (dy + r), mul_self_nonneg (dy - r)]

/-- Invariant of the explosion fold: a cell whose offset is not processed
(or is outside the disc) is untouched; a processed in-disc cell is skipped
when indestructible and otherwise satisfies `explodePost`. -/
theorem explode_fold (cx cy r2 : Int) :
    ∀ L : List (Int × Int), L.Nodup → ∀ (w : World) (x y : Int), w.in_bounds x y = true →
      (((x - cx, y - cy) ∉ L ∨ (x - cx) * (x - cx) + (y - cy) * (y - cy) > r2) →
        (L.foldl (explodeCell cx cy r2) w).cells (w.idx x y) = w.cells (w.idx x y))
      ∧ ((x - cx, y - cy) ∈ L → (x - cx) * (x - cx) + (y - cy) * (y - cy) ≤ r2 →
          (explodeSkips (w.cells (w.idx x y)).elem →
            (L.foldl (explodeCell cx cy r2) w).cells (w.idx x y) = w.cells (w.idx x y))
          ∧ (¬ explodeSkips (w.cells (w.idx x y)).elem →
            explodePost ((L.foldl (explodeCell cx cy r2) w).cells (w.idx x y)))) := by
  intro L
  induction L with
  | nil =>
    intro _ w x y _
    refine ⟨fun _ => rfl, fun hmem => absurd hmem (List.not_mem_nil _)⟩
  | cons d L ih =>
    intro hnd w x y hin
    have hnd' := (List.nodup_cons.mp hnd).2
    have hdL := (List.nodup_cons.mp hnd).1
    set w1 := explodeCell cx cy r2 w d with hw1
    have hw1w : w1.width = w.width := explodeCell_width cx cy r2 w d
    have hw1h : w1.height = w.height := explodeCell_height cx cy r2 w d
    have hin1 : w1.in_bounds x y = true := by rw [in_bounds_congr hw1w hw1h]; exact hin
    have hidx1 : w1.idx x y = w.idx x y := idx_congr hw1w x y
    have hfold : (d :: L).foldl (explodeCell cx cy r2) w = L.foldl (explodeCell cx cy r2) w1 := rfl
    have ihw1 := ih hnd' w1 x y hin1
    rw [hidx1] at ihw1
    by_cases hd : (x - cx, y - cy) = d
    · -- this iteration is the one that owns the cell (x, y)
      have hxe : cx + d.1 = x := by rw [← hd]; ring
      have hye : cy + d.2 = y := by rw [← hd]; ring
      have hnotL : (x - cx, y - cy) ∉ L := hd ▸ hdL
      constructor
      · intro hcase
        rcases hcase with hcase | hcase
        · exact absurd (hd ▸ List.mem_cons_self d L) hcase
        · -- outside the disc: this iteration skips, the rest never touch it
          have hskip : w1 = w := by
            rw [hw1]
            simp only [explodeCell]
            rw [if_pos]
            rw [← hd]
            ring_nf
            ring_nf at hcase
            exact hcase
          rw [hfold]
          rw [hskip] at ihw1 ⊢
          exact ihw1.1 (Or.inl hnotL)
      · intro _ hdisc
        have hdisc' : ¬(d.1 * d.1 + d.2 * d.2 > r2) := by
          rw [← hd]
          simp only [not_lt]
          ring_nf
          ring_nf at hdisc
          exact hdisc
        have hin' : w.in_bounds (cx + d.1) (cy + d.2) = true := by rw [hxe, hye]; exact hin
        constructor
        · intro hskip
          have hw1eq : w1 = w := by
            rw [hw1]
            refine explodeCell_at_skip cx cy r2 w d ?_
            rw [hxe, hye]
            exact hskip
          rw [hfold]
          rw [hw1eq] at ihw1 ⊢
          exact ihw1.1 (Or.inl hnotL)
        · intro hnsk
          have hpost : explodePost (w1.cells (w.idx x y)) := by
            have := explodeCell_at_hit cx cy r2 w d hdisc' hin' (by rw [hxe, hye]; exact hnsk)
            rw [hxe, hye] at this
            exact this
          rw [hfold]
          rw [ihw1.1 (Or.inl hnotL)]
          exact hpost
    · -- another offset: this iteration leaves (x, y) alone
      have huntouched : w1.cells (w.idx x y) = w.cells (w.idx x y) := by
        rw [hw1]
        refine explodeCell_cells_other cx cy r2 w d _ ?_
        intro hin' heq
        have := idx_inj w hin hin' heq
        exact hd (by rw [Prod.mk.injEq]; constructor <;> omega)
      constructor
      · intro hcase
        rw [hfold, ihw1.1, huntouched]
        rcases hcase with hcase | hcase
        · exact Or.inl (fun hmem => hcase (List.mem_cons_of_mem d hmem))
        · exact Or.inr hcase
      · intro hmem hdisc
        have hmemL : (x - cx, y - cy) ∈ L := by
          rcases List.mem_cons.mp hmem with h | h
          · exact absurd h hd
          · exact h
        have ih2 := ihw1.2 hmemL hdisc
        rw [huntouched] at ih2
        rw [hfold]
        exact ih2

theorem explode_width (cx cy r2 : Int) :
    ∀ (L : List (Int × Int)) (w : World), (L.foldl (explodeCell cx cy r2) w).width = w.width := by
  intro L
  induction L with
  | nil => intro w; rfl
  | cons d L ih =>
    intro w
    rw [List.foldl_cons, ih, explodeCell_width]

theorem explode_height (cx cy r2 : Int) :
    ∀ (L : List (Int × Int)) (w : World), (L.foldl (explodeCell cx cy r2) w).height = w.height := by
  intro L
  induction L with
  | nil => intro w; rfl
  | cons d L ih =>
    intro w
    rw [List.foldl_cons, ih, explodeCell_height]

/-- C6: `explode(cx, cy, r)` (with a nonnegative radius, as at every call
site) leaves every in-bounds cell with `dx²+dy² > r²` unchanged, leaves
every in-disc Wall/Stone/Glass/Metal/Wire/Ice cell unchanged, turns every
other in-disc in-bounds cell into exactly one of Fire (life 15 plus a
0..=10 draw), Smoke (life 20) or Gas (life 20) according to one 1..=100
roll (≤50 Fire, ≤80 Smoke, else Gas), and reads out-of-bounds cells as
unchanged. -/
theorem c6_explode (w : World) (cx cy r : Int) (hr : 0 ≤ r) (x y : Int) :
    (w.in_bounds x y = true →
      ((x - cx) * (x - cx) + (y - cy) * (y - cy) > r * r →
        (w.explode cx cy r).get_cell x y = w.get_cell x y)
      ∧ ((x - cx) * (x - cx) + (y - cy) * (y - cy) ≤ r * r →
          (explodeSkips (w.get_cell x y).elem →
            (w.explode cx cy r).get_cell x y = w.get_cell x y)
          ∧ (¬ explodeSkips (w.get_cell x y).elem →
            explodePost ((w.explode cx cy r).get_cell x y))))
      ∧ (w.in_bounds x y = false → (w.explode cx cy r).get_cell x y = w.get_cell x y) := by
  have hew : (w.explode cx cy r).width = w.width := explode_width cx cy (r * r) _ w
  have heh : (w.explode cx cy r).height = w.height := explode_height cx cy (r * r) _ w
  constructor
  · intro hin
    have hfold := explode_fold cx cy (r * r) (squareOffsets r) (squareOffsets_nodup r) w x y hin
    have hgc : (w.explode cx cy r).get_cell x y
        = (w.explode cx cy r).cells (w.idx x y) := by
      rw [get_cell_in_bounds _ x y (by rw [in_bounds_congr hew heh]; exact hin),
        idx_congr hew]
    have hgc2 := get_cell_in_bounds w x y hin
    constructor
    · intro hout
      rw [hgc, hgc2, World.explode]
      exact hfold.1 (Or.inr hout)
    · intro hdisc
      have hmem : (x - cx, y - cy) ∈ squareOffsets r := by
        rw [mem_squareOffsets]
        exact disc_offset_bounds hr hdisc
      have h2 := hfold.2 hmem hdisc
      constructor
      · intro hskip
        rw [hgc, hgc2, World.explode]
        exact h2.1 (by rw [← hgc2]; exact hskip)
      · intro hnsk
        rw [hgc, World.explode]
        exact h2.2 (by rw [← hgc2]; exact hnsk)
  · intro hout
    rw [get_cell_oob _ x y (by rw [in_bounds_congr hew heh, hout]; exact Bool.false_ne_true),
      get_cell_oob w x y (by rw [hout]; exact Bool.false_ne_true)]

/-- 3×3 grid, Stone in the center, Sand everywhere else. -/
def explodeW6 : World :=
  ⟨3, 3, fun i => if i = 4 then ⟨Element.Stone, 0⟩ else ⟨Element.Sand, 0⟩, ⟨1⟩⟩

theorem c6_explode_witness :
    ((explodeW6.explode 1 1 1).get_cell 0 0 = explodeW6.get_cell 0 0)
      ∧ ((explodeW6.explode 1 1 1).get_cell 1 1 = explodeW6.get_cell 1 1)
      ∧ explodePost ((explodeW6.explode 1 1 1).get_cell 1 0) :=
  ⟨((c6_explode explodeW6 1 1 1 (by decide) 0 0).1 (by decide)).1 (by decide),
    (((c6_explode explodeW6 1 1 1 (by decide) 1 1).1 (by decide)).2 (by decide)).1
      (Or.inr (Or.inl (by decide))),
    (((c6_explode explodeW6 1 1 1 (by decide) 1 0).1 (by decide)).2 (by decide)).2
      (by decide)⟩

theorem c10_lightning_start_witness :
    ((World.mk 1 1 (fun _ => ⟨Element.Wall, 0⟩) ⟨1⟩).place_lightning 5 0
        = World.mk 1 1 (fun _ => ⟨Element.Wall, 0⟩) ⟨1⟩)
      ∧ ((World.mk 1 1 (fun _ => ⟨Element.Wall, 0⟩) ⟨1⟩).place_lightning 0 0).get_cell 0 0
        = ⟨Element.Lightning, 2⟩ :=
  ⟨(c10_lightning_start (World.mk 1 1 (fun _ => ⟨Element.Wall, 0⟩) ⟨1⟩) 5 0).1 (by decide),
    (c10_lightning_start (World.mk 1 1 (fun _ => ⟨Element.Wall, 0⟩) ⟨1⟩) 0 0).2 (by decide)⟩

/-! ## The tick: update mask, category handlers, scheduler

The per-tick state is the world plus the update mask (`updated` in the
source).  Handlers are split so that every phase that cannot touch the
mask in the source is a `World → World` function; the mask writes appear
explicitly where the source sets `updated[..] = true`. -/

/-- World plus the per-tick `updated` mask. -/
structure Sim where
  w : World
  upd : Nat → Bool

/-- `updated[i] = true`. -/
def markUpd (u : Nat → Bool) (i : Nat) : Nat → Bool :=
  fun j => if j = i then true else u j

def Sim.mark (s : Sim) (i : Nat) : Sim := ⟨s.w, markUpd s.upd i⟩

/-- Read-only neighbourhood scan `(x+dx, y+dy)` for `(dx, dy)` in the
`(2r+1)²` square, with the predicate applied to in-bounds cells (models
the `for dy { for dx { .. break } }` scans that only read). -/
def hasNeighbor (w : World) (x y r : Int) (P : Cell → Bool) : Bool :=
  (squareOffsets r).any fun d =>
    w.in_bounds (x + d.1) (y + d.2) && P (w.cells (w.idx (x + d.1) (y + d.2)))

/-- Powder diagonal-slide attempt at `(nx, ny)`; the second component is
the destination index when the powder slid there. -/
def powderTry (w : World) (idx0 : Nat) (nx ny : Int) : World × Option Nat :=
  if w.in_bounds nx ny = true then
    let idxn := w.idx nx ny
    let e := (w.cells idxn).elem
    if e = Element.Empty ∨ is_liquid e = true then (w.swapCells idx0 idxn, some idxn)
    else (w, none)
  else (w, none)

/-- Powder movement: straight fall into Empty/liquid, else random-direction
diagonal slide.  Returns the destination index when the powder moved. -/
def powderMove (w : World) (x y : Int) (idx0 : Nat) : World × Option Nat :=
  if w.in_bounds x (y + 1) = true
      ∧ ((w.cells (w.idx x (y + 1))).elem = Element.Empty
          ∨ is_liquid (w.cells (w.idx x (y + 1))).elem = true) then
    (w.swapCells idx0 (w.idx x (y + 1)), some (w.idx x (y + 1)))
  else
    let p := w.rng.chance 50
    let w := w.withRng p.2
    let dir : Int := if p.1 then 1 else -1
    let a := powderTry w idx0 (x + dir) (y + 1)
    match a.2 with
    | some j => (a.1, some j)
    | none =>
      let b := powderTry a.1 idx0 (x - dir) (y + 1)
      (b.1, b.2)

/-- Snow-melt tail of `step_powder`. -/
def powderSnowTail (w : World) (x y : Int) (idx0 : Nat) (t : Element) : World :=
  if t = Element.Snow then
    if hasNeighbor w x y 1 (fun c => decide (c.elem = Element.Fire) || decide (c.elem = Element.Lava)) then
      w.setCell idx0 ⟨Element.Water, 0⟩
    else w
  else w

/-- Sand-submersion tail of `step_powder` (seaweed seeding). -/
def powderSandTail (w : World) (x y : Int) (idx0 : Nat) (t : Element) : World :=
  if t = Element.Sand then
    if w.in_bounds x (y - 1) = true
        ∧ (w.cells (w.idx x (y - 1))).elem = Element.Water then
      let life := (w.cells idx0).life + 1
      if life > 220 then
        let nearby := hasNeighbor w x y 2 (fun c => decide (c.elem = Element.Seaweed))
        let w :=
          if nearby = false ∧ w.in_bounds x (y - 1) = true
              ∧ (w.cells (w.idx x (y - 1))).elem = Element.Water then
            w.setCell (w.idx x (y - 1)) ⟨Element.Seaweed, 0⟩
          else w
        w.setCell idx0 ⟨(w.cells idx0).elem, 0⟩
      else w.setCell idx0 ⟨(w.cells idx0).elem, life⟩
    else w.setCell idx0 ⟨(w.cells idx0).elem, 0⟩
  else w

/-- `World::step_powder`. -/
def step_powder (s : Sim) (x y : Int) : Sim :=
  let idx0 := s.w.idx x y
  let t := (s.w.cells idx0).elem
  let mv := powderMove s.w x y idx0
  let s1 : Sim :=
    match mv.2 with
    | some j => ⟨mv.1, markUpd s.upd j⟩
    | none => ⟨mv.1, markUpd s.upd idx0⟩
  let w2 := powderSnowTail s1.w x y idx0 t
  let w3 := powderSandTail w2 x y idx0 t
  ⟨w3, s1.upd⟩

/-- Liquid lateral attempt in direction `dx` (includes the 50% yield roll
for displacing a lower-density liquid).  Returns the state after any RNG
draws plus the destination index when it moved. -/
def liquidTry (w : World) (idx0 : Nat) (t : Element) (nx ny : Int) : World × Option Nat :=
  if w.in_bounds nx ny = true then
    let idxn := w.idx nx ny
    let e := (w.cells idxn).elem
    if e = Element.Empty ∨ is_gas e = true then (w.swapCells idx0 idxn, some idxn)
    else if is_liquid e = true ∧ density t > density e then
      let p := w.rng.chance 50
      let w := w.withRng p.2
      if p.1 then (w.swapCells idx0 idxn, some idxn) else (w, none)
    else (w, none)
  else (w, none)

/-- Liquid movement: fall into Empty/gas or a lower-density liquid below,
else flow sideways. -/
def liquidMove (w : World) (x y : Int) (idx0 : Nat) (t : Element) : World × Option Nat :=
  if w.in_bounds x (y + 1) = true
      ∧ (((w.cells (w.idx x (y + 1))).elem = Element.Empty
            ∨ is_gas (w.cells (w.idx x (y + 1))).elem = true)
          ∨ (is_liquid (w.cells (w.idx x (y + 1))).elem = true
              ∧ density t > density (w.cells (w.idx x (y + 1))).elem)) then
    (w.swapCells idx0 (w.idx x (y + 1)), some (w.idx x (y + 1)))
  else
    let p := w.rng.chance 50
    let w := w.withRng p.2
    let d1 : Int := if p.1 then 1 else -1
    let a := liquidTry w idx0 t (x + d1) y
    match a.2 with
    | some j => (a.1, some j)
    | none =>
      let b := liquidTry a.1 idx0 t (x - d1) y
      (b.1, b.2)

/-- One neighbour of the liquid interaction loop (reactions with the copy
`n` read at the top of the iteration, as in the source). -/
def liquidInteractCell (x y : Int) (idx0 : Nat) (t : Element) (w : World) (d : Int × Int) : World :=
  if d.1 = 0 ∧ d.2 = 0 then w
  else
    let nx := x + d.1
    let ny := y + d.2
    if w.in_bounds nx ny = true then
      let nIdx := w.idx nx ny
      let n := w.cells nIdx
      let w :=
        if t = Element.Water ∨ t = Element.SaltWater then
          if n.elem = Element.Fire then w.setCell nIdx ⟨Element.Smoke, 15⟩
          else if n.elem = Element.Lava then
            let w := w.setCell nIdx ⟨Element.Stone, 0⟩
            let p := w.rng.chance 50
            let w := w.withRng p.2
            if p.1 then w.setCell idx0 ⟨Element.Steam, 20⟩
            else w.setCell idx0 ⟨Element.Stone, 0⟩
          else w
        else w
      let w :=
        if (t = Element.Oil ∨ t = Element.Ethanol)
            ∧ (n.elem = Element.Fire ∨ n.elem = Element.Lava) then
          w.setCell idx0 ⟨Element.Fire, 25⟩
        else w
      let w :=
        if t = Element.Acid then
          let w :=
            if is_dissolvable n.elem = true then
              let p := w.rng.chance 30
              let w := w.withRng p.2
              let w := if p.1 then w.setCell nIdx ⟨Element.ToxicGas, 25⟩
                       else w.setCell nIdx ⟨Element.Empty, 0⟩
              let q := w.rng.chance 25
              let w := w.withRng q.2
              if q.1 then w.setCell idx0 ⟨Element.Empty, 0⟩ else w
            else w
          if n.elem = Element.Water then
            let p := w.rng.chance 30
            let w := w.withRng p.2
            if p.1 then
              let w := w.setCell idx0 ⟨Element.SaltWater, 0⟩
              let q := w.rng.chance 30
              let w := w.withRng q.2
              if q.1 then w.setCell nIdx ⟨Element.Steam, 20⟩ else w
            else w
          else w
        else w
      let w :=
        if t = Element.Lava then
          if is_flammable n.elem = true then w.setCell nIdx ⟨Element.Fire, 25⟩
          else if n.elem = Element.Sand ∨ n.elem = Element.Snow then
            w.setCell nIdx ⟨Element.Glass, 0⟩
          else if n.elem = Element.Water ∨ n.elem = Element.SaltWater then
            let w := w.setCell nIdx ⟨Element.Stone, 0⟩
            let p := w.rng.chance 50
            let w := w.withRng p.2
            if p.1 then w.setCell idx0 ⟨Element.Steam, 20⟩
            else w.setCell idx0 ⟨Element.Stone, 0⟩
          else if n.elem = Element.Ice then w.setCell nIdx ⟨Element.Water, 0⟩
          else w
        else w
      w
    else w

/-- Lava self-cooling tail. -/
def liquidLavaTail (w : World) (idx0 : Nat) (t : Element) : World :=
  if t = Element.Lava then
    let c := w.cells idx0
    if c.life + 1 > 200 then w.setCell idx0 ⟨Element.Stone, 0⟩
    else w.setCell idx0 ⟨c.elem, c.life + 1⟩
  else w

/-- Water/SaltWater hydration of adjacent Dirt. -/
def liquidWetTail (w : World) (x y : Int) (t : Element) : World :=
  if t = Element.Water ∨ t = Element.SaltWater then
    (squareOffsets 1).foldl (fun w d =>
      let nx := x + d.1
      let ny := y + d.2
      if w.in_bounds nx ny = true then
        let nIdx := w.idx nx ny
        let n := w.cells nIdx
        if n.elem = Element.Dirt ∨ n.elem = Element.WetDirt then
          w.setCell nIdx ⟨Element.WetDirt, 300⟩
        else w
      else w) w
  else w

/-- Electrified Water/SaltWater: propagate charge, kill adjacent actors,
decay own charge. -/
def liquidChargeTail (w : World) (x y : Int) (idx0 : Nat) (t : Element) : World :=
  if (t = Element.Water ∨ t = Element.SaltWater) ∧ (w.cells idx0).life > 0 then
    let q := (w.cells idx0).life
    let w := (squareOffsets 1).foldl (fun w d =>
      if d.1 = 0 ∧ d.2 = 0 then w
      else
        let nx := x + d.1
        let ny := y + d.2
        if w.in_bounds nx ny = true then
          let nIdx := w.idx nx ny
          let n := w.cells nIdx
          let n := if (n.elem = Element.Water ∨ n.elem = Element.SaltWater) ∧ n.life < q - 1
                   then (⟨n.elem, q - 1⟩ : Cell) else n
          let n := if n.elem = Element.Human ∨ n.elem = Element.Zombie
                   then (⟨Element.Ash, 0⟩ : Cell) else n
          w.setCell nIdx n
        else w) w
    let c := w.cells idx0
    let life' := if c.life - 1 < 0 then 0 else c.life - 1
    w.setCell idx0 ⟨c.elem, life'⟩
  else w

/-- `World::step_liquid`. -/
def step_liquid (s : Sim) (x y : Int) : Sim :=
  let idx0 := s.w.idx x y
  let t := (s.w.cells idx0).elem
  let mv := liquidMove s.w x y idx0 t
  let s1 : Sim :=
    match mv.2 with
    | some j => ⟨mv.1, markUpd s.upd j⟩
    | none => ⟨mv.1, markUpd s.upd idx0⟩
  let w2 := (squareOffsets 1).foldl (liquidInteractCell x y idx0 t) s1.w
  let w3 := liquidLavaTail w2 idx0 t
  let w4 := liquidWetTail w3 x y t
  let w5 := liquidChargeTail w4 x y idx0 t
  ⟨w5, s1.upd⟩

/-- The rise loop of `step_gas`: `for _ in 0..tries { if above is Empty
{ swap; break } }`.  Returns the destination index on success. -/
def gasRise (w : World) (x y : Int) (idx0 : Nat) : Nat → World × Option Nat
  | 0 => (w, none)
  | t + 1 =>
    if w.in_bounds x (y - 1) = true
        ∧ (w.cells (w.idx x (y - 1))).elem = Element.Empty then
      (w.swapCells idx0 (w.idx x (y - 1)), some (w.idx x (y - 1)))
    else gasRise w x y idx0 t

/-- Sideways/diagonal-up drift attempt of `step_gas` in direction `dx`
(the upward component is a fresh 50% draw per attempt). -/
def gasSideTry (w : World) (x y : Int) (idx0 : Nat) (dx : Int) : World × Option Nat :=
  let p := w.rng.chance 50
  let w := w.withRng p.2
  let ny := y - (if p.1 then 1 else 0)
  let nx := x + dx
  if w.in_bounds nx ny = true ∧ (w.cells (w.idx nx ny)).elem = Element.Empty then
    (w.swapCells idx0 (w.idx nx ny), some (w.idx nx ny))
  else (w, none)

/-- Hydrogen/Gas ignition near Fire/Lava (Hydrogen detonates centred on
itself; Gas converts in place). -/
def gasIgniteTail (w : World) (x y : Int) (idx0 : Nat) (t : Element) : World :=
  if t = Element.Hydrogen ∨ t = Element.Gas then
    (squareOffsets 1).foldl (fun w d =>
      if d.1 = 0 ∧ d.2 = 0 then w
      else
        let nx := x + d.1
        let ny := y + d.2
        if w.in_bounds nx ny = true then
          let e := (w.cells (w.idx nx ny)).elem
          if e = Element.Fire ∨ e = Element.Lava then
            if t = Element.Hydrogen then w.explode x y 4
            else w.setCell idx0 ⟨Element.Fire, 12⟩
          else w
        else w) w
  else w

/-- Chlorine turning adjacent Plant into ToxicGas (35% each). -/
def gasChlorineTail (w : World) (x y : Int) (t : Element) : World :=
  if t = Element.Chlorine then
    (squareOffsets 1).foldl (fun w d =>
      let nx := x + d.1
      let ny := y + d.2
      if w.in_bounds nx ny = true then
        let nIdx := w.idx nx ny
        if (w.cells nIdx).elem = Element.Plant then
          let p := w.rng.chance 35
          let w := w.withRng p.2
          if p.1 then w.setCell nIdx ⟨Element.ToxicGas, 25⟩ else w
        else w
      else w) w
  else w

/-- `World::step_gas`.  Note the source decrements the life of the cell at
the *original* index `idx0` even when the gas moved away (so a risen gas
does not age, and the left-behind Empty cell runs the expiry branch). -/
def step_gas (s : Sim) (x y : Int) : Sim :=
  let idx0 := s.w.idx x y
  let t := (s.w.cells idx0).elem
  let tries : Nat := if t = Element.Hydrogen then 2 else 1
  let mv := gasRise s.w x y idx0 tries
  let mv :=
    match mv.2 with
    | some j => (mv.1, some j)
    | none =>
      let p := mv.1.rng.chance 50
      let w := mv.1.withRng p.2
      let d1 : Int := if p.1 then 1 else -1
      let a := gasSideTry w x y idx0 d1
      match a.2 with
      | some j => (a.1, some j)
      | none => gasSideTry a.1 x y idx0 (-d1)
  let moved := mv.2.isSome
  let s1 : Sim :=
    match mv.2 with
    | some j => ⟨mv.1, markUpd s.upd j⟩
    | none => ⟨mv.1, s.upd⟩
  let w2 := gasIgniteTail s1.w x y idx0 t
  let w3 := gasChlorineTail w2 x y t
  let c := w3.cells idx0
  let life' := c.life - 1
  if life' ≤ 0 then
    match t with
    | Element.Steam =>
      let p := w3.rng.chance 15
      let w4 := w3.withRng p.2
      if p.1 then ⟨w4.setCell idx0 ⟨Element.Water, 0⟩, s1.upd⟩
      else ⟨w4.setCell idx0 ⟨Element.Empty, 0⟩, s1.upd⟩
    | Element.Smoke =>
      let p := w3.rng.chance 8
      let w4 := w3.withRng p.2
      if p.1 then ⟨w4.setCell idx0 ⟨Element.Ash, 0⟩, s1.upd⟩
      else ⟨w4.setCell idx0 ⟨Element.Empty, 0⟩, s1.upd⟩
    | _ => ⟨w3.setCell idx0 ⟨Element.Empty, 0⟩, s1.upd⟩
  else
    let s2 : Sim := ⟨w3.setCell idx0 ⟨c.elem, life'⟩, s1.upd⟩
    if moved = false then s2.mark idx0 else s2

/-- `World::step_fire`. -/
def step_fire (s : Sim) (x y : Int) : Sim :=
  let idx0 := s.w.idx x y
  -- 50% flicker into Empty/gas above
  let fl : World × Option Nat :=
    if s.w.in_bounds x (y - 1) = true then
      let idxu := s.w.idx x (y - 1)
      let e_up := (s.w.cells idxu).elem
      if e_up = Element.Empty ∨ is_gas e_up = true then
        let p := s.w.rng.chance 50
        let w := s.w.withRng p.2
        if p.1 then (w.swapCells idx0 idxu, some idxu) else (w, none)
      else (s.w, none)
    else (s.w, none)
  let s1 : Sim :=
    match fl.2 with
    | some j => ⟨fl.1, markUpd s.upd j⟩
    | none => ⟨fl.1, s.upd⟩
  let w2 := (squareOffsets 1).foldl (fun w d =>
    if d.1 = 0 ∧ d.2 = 0 then w
    else
      let nx := x + d.1
      let ny := y + d.2
      if w.in_bounds nx ny = true then
        let nIdx := w.idx nx ny
        let n := w.cells nIdx
        let pr : Cell × World :=
          if is_flammable n.elem = true then
            let p := w.rng.chance 40
            let w := w.withRng p.2
            if p.1 then
              if n.elem = Element.Gunpowder then (n, w.explode nx ny 5)
              else
                let q := w.rng.range_i32 0 10
                ((⟨Element.Fire, 15 + q.1⟩ : Cell), w.withRng q.2)
            else (n, w)
          else (n, w)
        let n := pr.1
        let w := pr.2
        let w :=
          if n.elem = Element.Water ∨ n.elem = Element.SaltWater then
            w.setCell idx0 ⟨Element.Smoke, 15⟩
          else w
        let pr2 : Cell × World :=
          if n.elem = Element.Wire ∨ n.elem = Element.Metal then
            let p := w.rng.chance 5
            let w := w.withRng p.2
            if p.1 then ((⟨n.elem, max n.life 5⟩ : Cell), w) else (n, w)
          else (n, w)
        (pr2.2).setCell nIdx pr2.1
      else w) s1.w
  let c := w2.cells idx0
  let life' := c.life - 1
  let w3 := if life' ≤ 0 then w2.setCell idx0 ⟨Element.Smoke, 15⟩
            else w2.setCell idx0 ⟨c.elem, life'⟩
  (⟨w3, s1.upd⟩ : Sim).mark idx0

/-- `World::step_lightning`. -/
def step_lightning (s : Sim) (x y : Int) : Sim :=
  let idx0 := s.w.idx x y
  let w1 := (squareOffsets 2).foldl (fun w d =>
    if d.1 = 0 ∧ d.2 = 0 then w
    else
      let nx := x + d.1
      let ny := y + d.2
      if w.in_bounds nx ny = true then
        let nIdx := w.idx nx ny
        let n0 := w.cells nIdx
        let e := n0.elem
        let n1 := if e = Element.Wire ∨ e = Element.Metal
                  then (⟨e, max n0.life 12⟩ : Cell) else n0
        let n2 := if e = Element.Water ∨ e = Element.SaltWater
                  then (⟨n1.elem, max n1.life 8⟩ : Cell) else n1
        let pr : Cell × World :=
          if is_flammable e = true then
            if e = Element.Gunpowder then (n2, w.explode nx ny 6)
            else
              let q := w.rng.range_i32 0 10
              ((⟨Element.Fire, 20 + q.1⟩ : Cell), w.withRng q.2)
          else (n2, w)
        let w := pr.2
        let w := if e = Element.Hydrogen ∨ e = Element.Gas then w.explode nx ny 4 else w
        w.setCell nIdx pr.1
      else w) s.w
  let c := w1.cells idx0
  let life' := c.life - 1
  let w2 := if life' ≤ 0 then w1.setCell idx0 ⟨Element.Empty, 0⟩
            else w1.setCell idx0 ⟨c.elem, life'⟩
  (⟨w2, s.upd⟩ : Sim).mark idx0

/-- `World::try_walk`: swap into an Empty/gas destination. -/
def try_walk (w : World) (x y tx ty : Int) : World × Bool :=
  if w.in_bounds tx ty = true then
    let dst := (w.cells (w.idx tx ty)).elem
    if dst = Element.Empty ∨ is_gas dst = true then
      (w.swapCells (w.idx x y) (w.idx tx ty), true)
    else (w, false)
  else (w, false)

/-- First-found scan for a target actor in the 13×13 window (row-major,
`ry` outer, matching the source's break order). -/
def actorScan (w : World) (x y : Int) (target : Element) : Option (Int × Int) :=
  match (squareOffsets 6).find? (fun d =>
    w.in_bounds (x + d.1) (y + d.2)
      && decide ((w.cells (w.idx (x + d.1) (y + d.2))).elem = target)) with
  | some d => some (x + d.1, y + d.2)
  | none => none

/-- Actor death test: a hazard material or charged Water/SaltWater in the
3×3 neighbourhood (the scan includes the centre, as in the source). -/
def hazardNear (w : World) (x y : Int) : Bool :=
  hasNeighbor w x y 1 (fun n =>
    is_hazard n.elem
      || ((decide (n.elem = Element.Water) || decide (n.elem = Element.SaltWater))
           && decide (n.life > 0)))

/-- The shared walk phase of human/zombie: try `dir`, else maybe hop up,
else retry a random direction. -/
def actorWalk (w : World) (x y : Int) (idx0 : Nat) (dir : Int) : World :=
  let wk := try_walk w x y (x + dir) y
  if wk.2 = false then
    let w := wk.1
    if w.in_bounds (x + dir) (y - 1) = true
        ∧ (w.cells (w.idx (x + dir) (y - 1))).elem = Element.Empty
        ∧ (w.cells (w.idx x (y - 1))).elem = Element.Empty then
      let p := w.rng.chance 70
      let w := w.withRng p.2
      if p.1 then w.swapCells idx0 (w.idx x (y - 1))
      else
        let q := w.rng.chance 50
        let w := w.withRng q.2
        let alt : Int := if q.1 then 1 else -1
        (try_walk w x y (x + alt) y).1
    else
      let q := w.rng.chance 50
      let w := w.withRng q.2
      let alt : Int := if q.1 then 1 else -1
      (try_walk w x y (x + alt) y).1
  else wk.1

/-- `World::step_human`. -/
def step_human (s : Sim) (x y : Int) : Sim :=
  let idx0 := s.w.idx x y
  if hazardNear s.w x y = true then
    (⟨s.w.setCell idx0 ⟨Element.Ash, 0⟩, s.upd⟩ : Sim).mark idx0
  else
    let c0 := s.w.cells idx0
    let w := s.w.setCell idx0 ⟨c0.elem, c0.life + 1⟩
    if w.in_bounds x (y + 1) = true
        ∧ ((w.cells (w.idx x (y + 1))).elem = Element.Empty
            ∨ is_gas (w.cells (w.idx x (y + 1))).elem = true) then
      ⟨w.swapCells idx0 (w.idx x (y + 1)), markUpd s.upd (w.idx x (y + 1))⟩
    else
      let zpos := actorScan w x y Element.Zombie
      let w := (squareOffsets 1).foldl (fun w d =>
        if d.1 = 0 ∧ d.2 = 0 then w
        else
          let nx := x + d.1
          let ny := y + d.2
          if w.in_bounds nx ny = true then
            let nIdx := w.idx nx ny
            let n := w.cells nIdx
            let pr : Cell × World :=
              if n.elem = Element.Zombie then
                let p := w.rng.chance 35
                let w := w.withRng p.2
                if p.1 then
                  let q := w.rng.chance 60
                  let w := w.withRng q.2
                  if q.1 then
                    let k := w.rng.range_i32 0 10
                    ((⟨Element.Fire, 10 + k.1⟩ : Cell), w.withRng k.2)
                  else ((⟨Element.Ash, 0⟩ : Cell), w)
                else (n, w)
              else (n, w)
            (pr.2).setCell nIdx pr.1
          else w) w
      let p := w.rng.chance 50
      let w := w.withRng p.2
      let dir : Int :=
        match zpos with
        | some zp => if zp.1 < x then 1 else -1
        | none => if p.1 then 1 else -1
      (⟨actorWalk w x y idx0 dir, s.upd⟩ : Sim).mark idx0

/-- `World::step_zombie`. -/
def step_zombie (s : Sim) (x y : Int) : Sim :=
  let idx0 := s.w.idx x y
  let w0 := if hazardNear s.w x y = true then s.w.setCell idx0 ⟨Element.Fire, 15⟩ else s.w
  if (w0.cells idx0).elem ≠ Element.Zombie then
    (⟨w0, s.upd⟩ : Sim).mark idx0
  else
    let c0 := w0.cells idx0
    let w := w0.setCell idx0 ⟨c0.elem, c0.life + 1⟩
    if w.in_bounds x (y + 1) = true
        ∧ ((w.cells (w.idx x (y + 1))).elem = Element.Empty
            ∨ is_gas (w.cells (w.idx x (y + 1))).elem = true) then
      ⟨w.swapCells idx0 (w.idx x (y + 1)), markUpd s.upd (w.idx x (y + 1))⟩
    else
      let hpos := actorScan w x y Element.Human
      let w := (squareOffsets 1).foldl (fun w d =>
        if d.1 = 0 ∧ d.2 = 0 then w
        else
          let nx := x + d.1
          let ny := y + d.2
          if w.in_bounds nx ny = true then
            let nIdx := w.idx nx ny
            let n := w.cells nIdx
            let pr : Cell × World :=
              if n.elem = Element.Human then
                let p := w.rng.chance 70
                let w := w.withRng p.2
                if p.1 then ((⟨Element.Zombie, 0⟩ : Cell), w)
                else ((⟨Element.Fire, 10⟩ : Cell), w)
              else (n, w)
            (pr.2).setCell nIdx pr.1
          else w) w
      let p := w.rng.chance 50
      let w := w.withRng p.2
      let dir : Int :=
        match hpos with
        | some hp => if hp.1 > x then 1 else -1
        | none => if p.1 then 1 else -1
      (⟨actorWalk w x y idx0 dir, s.upd⟩ : Sim).mark idx0

/-- `World::step_wet_dirt`. -/
def step_wet_dirt (s : Sim) (x y : Int) : Sim :=
  let idx0 := s.w.idx x y
  let near_water := hasNeighbor s.w x y 1 (fun n =>
    decide (n.elem = Element.Water) || decide (n.elem = Element.SaltWater))
  let w :=
    if near_water = false then
      let c := s.w.cells idx0
      let life' := c.life - 1
      if life' ≤ 0 then s.w.setCell idx0 ⟨Element.Dirt, 0⟩
      else s.w.setCell idx0 ⟨c.elem, life'⟩
    else s.w
  (⟨w, s.upd⟩ : Sim).mark idx0

/-- `World::step_plant_like` (Plant and Seaweed). -/
def step_plant_like (s : Sim) (x y : Int) : Sim :=
  let idx0 := s.w.idx x y
  let t := (s.w.cells idx0).elem
  let w := (squareOffsets 1).foldl (fun w d =>
    if d.1 = 0 ∧ d.2 = 0 then w
    else
      let nx := x + d.1
      let ny := y + d.2
      if w.in_bounds nx ny = true then
        let e := (w.cells (w.idx nx ny)).elem
        if e = Element.Fire ∨ e = Element.Lava then w.setCell idx0 ⟨Element.Fire, 20⟩
        else w
      else w) s.w
  if (w.cells idx0).elem = Element.Fire then
    (⟨w, s.upd⟩ : Sim).mark idx0
  else
    let w :=
      if t = Element.Plant then
        if w.in_bounds x (y + 1) = true
            ∧ (w.cells (w.idx x (y + 1))).elem = Element.WetDirt then
          let p := w.rng.chance 2
          let w := w.withRng p.2
          if p.1 then
            if w.in_bounds x (y - 1) = true
                ∧ (w.cells (w.idx x (y - 1))).elem = Element.Empty then
              w.setCell (w.idx x (y - 1)) ⟨Element.Plant, 0⟩
            else w
          else w
        else w
      else
        if (w.in_bounds x (y - 1) = true
              ∧ ((w.cells (w.idx x (y - 1))).elem = Element.Water
                  ∨ (w.cells (w.idx x (y - 1))).elem = Element.SaltWater))
            ∧ (¬ w.in_bounds x (y - 1) = true
                ∨ (w.cells (w.idx x (y - 1))).elem ≠ Element.Seaweed) then
          let p := w.rng.chance 2
          let w := w.withRng p.2
          if p.1 then
            if w.in_bounds x (y - 1) = true then
              let idxg := w.idx x (y - 1)
              let e := (w.cells idxg).elem
              if e = Element.Water ∨ e = Element.SaltWater then
                w.setCell idxg ⟨Element.Seaweed, 0⟩
              else w
            else w
          else w
        else w
    (⟨w, s.upd⟩ : Sim).mark idx0

/-- `World::step_burnable_solid` (Wood and Coal). -/
def step_burnable_solid (s : Sim) (x y : Int) : Sim :=
  let idx0 := s.w.idx x y
  let t := (s.w.cells idx0).elem
  let w := (squareOffsets 1).foldl (fun w d =>
    if d.1 = 0 ∧ d.2 = 0 then w
    else
      let nx := x + d.1
      let ny := y + d.2
      if w.in_bounds nx ny = true then
        let e := (w.cells (w.idx nx ny)).elem
        if e = Element.Fire ∨ e = Element.Lava then
          w.setCell idx0 ⟨Element.Fire, if t = Element.Coal then 35 else 25⟩
        else w
      else w) s.w
  (⟨w, s.upd⟩ : Sim).mark idx0

/-- `World::step_gunpowder`.  The `break` in the source only exits the
inner `dx` loop, so each of the three rows can trigger its own explosion. -/
def step_gunpowder (s : Sim) (x y : Int) : Sim :=
  let idx0 := s.w.idx x y
  let w := (rangeInc (-1) 1).foldl (fun w dy =>
    match (rangeInc (-1) 1).find? (fun dx =>
      !(decide (dx = 0) && decide (dy = 0))
        && w.in_bounds (x + dx) (y + dy)
        && (decide ((w.cells (w.idx (x + dx) (y + dy))).elem = Element.Fire)
            || decide ((w.cells (w.idx (x + dx) (y + dy))).elem = Element.Lava))) with
    | some _ => w.explode x y 5
    | none => w) s.w
  (⟨w, s.upd⟩ : Sim).mark idx0

/-- `World::step_conductor` (Wire and Metal). -/
def step_conductor (s : Sim) (x y : Int) : Sim :=
  let idx0 := s.w.idx x y
  let life := (s.w.cells idx0).life
  let w :=
    if life > 0 then
      let q := life
      let w := (squareOffsets 1).foldl (fun w d =>
        if d.1 = 0 ∧ d.2 = 0 then w
        else
          let nx := x + d.1
          let ny := y + d.2
          if w.in_bounds nx ny = true then
            let nIdx := w.idx nx ny
            let n := w.cells nIdx
            let n := if (n.elem = Element.Wire ∨ n.elem = Element.Metal) ∧ n.life < q - 1
                     then (⟨n.elem, q - 1⟩ : Cell) else n
            let n := if (n.elem = Element.Water ∨ n.elem = Element.SaltWater) ∧ n.life < q - 1
                     then (⟨n.elem, q - 1⟩ : Cell) else n
            let pr : Cell × World :=
              if is_flammable n.elem = true then
                let p := w.rng.chance 15
                let w := w.withRng p.2
                if p.1 then
                  if n.elem = Element.Gunpowder then (n, w.explode nx ny 5)
                  else
                    let k := w.rng.range_i32 0 10
                    ((⟨Element.Fire, 15 + k.1⟩ : Cell), w.withRng k.2)
                else (n, w)
              else (n, w)
            let n := pr.1
            let w := pr.2
            let w :=
              if n.elem = Element.Hydrogen ∨ n.elem = Element.Gas then
                let p := w.rng.chance 35
                let w := w.withRng p.2
                if p.1 then w.explode nx ny 4 else w
              else w
            w.setCell nIdx n
          else w) s.w
      let c := w.cells idx0
      let life' := if c.life - 1 < 0 then 0 else c.life - 1
      w.setCell idx0 ⟨c.elem, life'⟩
    else s.w
  (⟨w, s.upd⟩ : Sim).mark idx0

/-- `World::step_ice`: one 25% melt roll per hot neighbour until a success. -/
def step_ice (s : Sim) (x y : Int) : Sim :=
  let idx0 := s.w.idx x y
  let mw := (squareOffsets 1).foldl (fun (acc : World × Bool) d =>
    if acc.2 then acc
    else
      let nx := x + d.1
      let ny := y + d.2
      if acc.1.in_bounds nx ny = true then
        let e := (acc.1.cells (acc.1.idx nx ny)).elem
        if e = Element.Fire ∨ e = Element.Lava ∨ e = Element.Steam then
          let p := acc.1.rng.chance 25
          (acc.1.withRng p.2, p.1)
        else acc
      else acc) (s.w, false)
  let w := if mw.2 then mw.1.setCell idx0 ⟨Element.Water, 0⟩ else mw.1
  (⟨w, s.upd⟩ : Sim).mark idx0

/-- Does this element dispatch to one of the 13 category handlers?
(Empty, Wall, Stone, Glass and Dirt are static: the scheduler marks them
without invoking a handler.) -/
def invokesHandler (e : Element) : Bool :=
  is_sand_like e || is_liquid e || is_gas e
    || decide (e = Element.Fire) || decide (e = Element.Lightning)
    || decide (e = Element.Human) || decide (e = Element.Zombie)
    || decide (e = Element.WetDirt)
    || decide (e = Element.Plant) || decide (e = Element.Seaweed)
    || decide (e = Element.Wood) || decide (e = Element.Coal)
    || decide (e = Element.Gunpowder)
    || decide (e = Element.Wire) || decide (e = Element.Metal)
    || decide (e = Element.Ice)

/-- One scheduler iteration at traversal position `p`: skip if already
updated; Empty/Wall are marked and skipped; otherwise dispatch to the
category handler; anything left (Stone, Glass, Dirt) is static. -/
def stepCell (s : Sim) (p : Int × Int) : Sim :=
  let x := p.1
  let y := p.2
  let idx0 := s.w.idx x y
  if s.upd idx0 = true then s
  else
    let elem := (s.w.cells idx0).elem
    if elem = Element.Empty ∨ elem = Element.Wall then s.mark idx0
    else if is_sand_like elem = true then step_powder s x y
    else if is_liquid elem = true then step_liquid s x y
    else if is_gas elem = true then step_gas s x y
    else if elem = Element.Fire then step_fire s x y
    else if elem = Element.Lightning then step_lightning s x y
    else if elem = Element.Human then step_human s x y
    else if elem = Element.Zombie then step_zombie s x y
    else if elem = Element.WetDirt then step_wet_dirt s x y
    else if elem = Element.Plant ∨ elem = Element.Seaweed then step_plant_like s x y
    else if elem = Element.Wood ∨ elem = Element.Coal then step_burnable_solid s x y
    else if elem = Element.Gunpowder then step_gunpowder s x y
    else if elem = Element.Wire ∨ elem = Element.Metal then step_conductor s x y
    else if elem = Element.Ice then step_ice s x y
    else s.mark idx0

/-- The scheduler's traversal: rows bottom-up, columns left-to-right. -/
def traversal (wi h : Int) : List (Int × Int) :=
  List.flatMap (List.reverse (rangeInc 0 (h - 1)))
    (fun y => List.map (fun x => (x, y)) (rangeInc 0 (wi - 1)))

/-- `World::step`: one full tick with a fresh all-false update mask. -/
def World.step (w : World) : World :=
  if w.width ≤ 0 ∨ w.height ≤ 0 then w
  else ((traversal w.width w.height).foldl stepCell ⟨w, fun _ => false⟩).w

/-- The operations an embedding application drives a world with (the
authoring call and the per-tick call). -/
inductive Op where
  | brush (cx cy rad : Int) (e : Element)
  | step

/-- Apply one operation. -/
def applyOp (w : World) (o : Op) : World :=
  match o with
  | .brush cx cy rad e => w.place_brush cx cy rad e
  | .step => w.step

/-- Drive a world through a sequence of operations. -/
def applyOps (w : World) (l : List Op) : World :=
  l.foldl applyOp w

/-- Did the scheduler iteration at `p` invoke a category handler? (It did
iff the cell was not yet marked updated and its element has a handler.) -/
def dispatched (s : Sim) (p : Int × Int) : Bool :=
  !s.upd (s.w.idx p.1 p.2) && invokesHandler (s.w.cells (s.w.idx p.1 p.2)).elem

/-- Ghost-instrumented tick: besides folding `stepCell`, count for every
flat cell index how many handler invocations changed that cell (material
or life) during the tick. -/
def tickWritesAux : List (Int × Int) → Sim × (Nat → Nat) → Sim × (Nat → Nat)
  | [], sc => sc
  | p :: L, sc =>
    tickWritesAux L
      (stepCell sc.1 p,
        fun i => sc.2 i
          + (if dispatched sc.1 p = true ∧ (stepCell sc.1 p).w.cells i ≠ sc.1.w.cells i
             then 1 else 0))

/-- Per-cell count of handler invocations that wrote (changed) the cell
within one call to `step`. -/
def tickWrites (w : World) : Nat → Nat :=
  if w.width ≤ 0 ∨ w.height ≤ 0 then fun _ => 0
  else (tickWritesAux (traversal w.width w.height) (⟨w, fun _ => false⟩, fun _ => 0)).2

/-- Ghost-instrumented tick: count for every grid position how many
handler invocations were dispatched with that position as source cell. -/
def tickDispatchesAux : List (Int × Int) → Sim × ((Int × Int) → Nat) → Sim × ((Int × Int) → Nat)
  | [], sc => sc
  | p :: L, sc =>
    tickDispatchesAux L
      (stepCell sc.1 p,
        fun q => sc.2 q + (if p = q ∧ dispatched sc.1 p = true then 1 else 0))

/-- Per-position count of handler invocations dispatched on that source
cell within one call to `step`. -/
def tickDispatches (w : World) : (Int × Int) → Nat :=
  if w.width ≤ 0 ∨ w.height ≤ 0 then fun _ => 0
  else (tickDispatchesAux (traversal w.width w.height) (⟨w, fun _ => false⟩, fun _ => 0)).2

/-- The instrumented folds compute the same tick as `step`. -/
theorem tickWritesAux_fst :
    ∀ (L : List (Int × Int)) (sc : Sim × (Nat → Nat)),
      (tickWritesAux L sc).1 = L.foldl stepCell sc.1 := by
  intro L
  induction L with
  | nil => intro sc; rfl
  | cons p L ih =>
    intro sc
    rw [List.foldl_cons]
    exact ih _

theorem tickDispatchesAux_fst :
    ∀ (L : List (Int × Int)) (sc : Sim × ((Int × Int) → Nat)),
      (tickDispatchesAux L sc).1 = L.foldl stepCell sc.1 := by
  intro L
  induction L with
  | nil => intro sc; rfl
  | cons p L ih =>
    intro sc
    rw [List.foldl_cons]
    exact ih _

/-! ## C1: determinism -/

/-- C1: two worlds constructed by `World::new` with the same width, height
and seed and driven through the same operation sequence (brush placements
and steps) have identical cell buffers after every prefix of the sequence.
The engine is a pure function of its inputs: the same construction and the
same operations yield the same buffer, tick for tick. -/
theorem c1_determinism (w1 w2 : World) (width height : Int) (seed : Nat)
    (ops : List Op) (h1 : w1 = World.new width height seed)
    (h2 : w2 = World.new width height seed) (n : Nat) :
    (applyOps w1 (ops.take n)).cells = (applyOps w2 (ops.take n)).cells := by
  subst h1
  subst h2
  rfl

theorem c1_determinism_witness :
    (applyOps (World.new 2 2 5) ([Op.brush 0 0 1 Element.Sand, Op.step].take 2)).cells
      = (applyOps (World.new 2 2 5) ([Op.brush 0 0 1 Element.Sand, Op.step].take 2)).cells :=
  c1_determinism (World.new 2 2 5) (World.new 2 2 5) 2 2 5
    [Op.brush 0 0 1 Element.Sand, Op.step] rfl rfl 2

/-! ## C3: single-update-per-cell -/

/-- 2×1 world: Fire (life 10) at (0,0), Wood at (1,0), seed 2. -/
def fireWoodW3 : World :=
  ⟨2, 1, fun i => if i = 0 then ⟨Element.Fire, 10⟩ else ⟨Element.Wood, 0⟩, Rng.new 2⟩

/-- C3 counterexample: with seed 2 the fire handler at (0,0) ignites the
Wood at (1,0) (first write to cell 1), and the freshly created Fire at
(1,0) — never marked updated by the fire handler — is dispatched later in
the same tick and decrements its own life (second write to cell 1): flat
cell 1 is written by two category-handler invocations within one tick. -/
theorem c3_single_update_counterexample : tickWrites fireWoodW3 1 = 2 := by
  decide

theorem traversal_nodup (wi h : Int) : (traversal wi h).Nodup := by
  rw [traversal, List.nodup_flatMap]
  constructor
  · intro yy _
    refine List.Nodup.map ?_ (rangeInc_nodup _ _)
    intro a b hab
    exact ((Prod.mk.injEq _ _ _ _).mp hab).1
  · refine ((List.nodup_reverse).mpr (rangeInc_nodup 0 (h - 1))).pairwise_of_forall_ne ?_
    intro a _ b _ hne
    simp only [Function.onFun, List.disjoint_left, List.mem_map]
    rintro p ⟨xa, hxa, rfl⟩ ⟨xb, hxb, hp⟩
    exact hne ((Prod.mk.injEq _ _ _ _).mp hp).2.symm

theorem tickDispatchesAux_le :
    ∀ (L : List (Int × Int)), L.Nodup → ∀ (sc : Sim × ((Int × Int) → Nat)) (q : Int × Int),
      (tickDispatchesAux L sc).2 q ≤ sc.2 q + (if q ∈ L then 1 else 0) := by
  intro L
  induction L with
  | nil =>
    intro _ sc q
    simp [tickDispatchesAux]
  | cons p L ih =>
    intro hnd sc q
    have hpL := (List.nodup_cons.mp hnd).1
    have hL := (List.nodup_cons.mp hnd).2
    have h := ih hL (stepCell sc.1 p,
      fun r => sc.2 r + (if p = r ∧ dispatched sc.1 p = true then 1 else 0)) q
    rw [tickDispatchesAux]
    refine le_trans h ?_
    dsimp only
    by_cases hpq : p = q
    · subst hpq
      rw [if_neg hpL, if_pos (List.mem_cons_self p L)]
      by_cases hd : dispatched sc.1 p = true
      · rw [if_pos (show p = p ∧ dispatched sc.1 p = true from ⟨rfl, hd⟩)]
      · rw [if_neg (show ¬(p = p ∧ dispatched sc.1 p = true) from fun hc => hd hc.2)]
        omega
    · rw [if_neg (show ¬(p = q ∧ dispatched sc.1 p = true) from fun hc => hpq hc.1)]
      by_cases hqL : q ∈ L
      · rw [if_pos hqL, if_pos (List.mem_cons_of_mem p hqL)]
      · rw [if_neg hqL, if_neg (show ¬ q ∈ p :: L from by
          intro hc
          rcases List.mem_cons.mp hc with hc | hc
          · exact hpq hc.symm
          · exact hqL hc)]

/-- C3 (amended): within one tick no grid cell is dispatched as the
*source* of more than one category-handler invocation (the scheduler
visits each position once and skips marked cells); a cell can still be
written by another cell's handler invocation through neighbour effects,
as the counterexample shows. -/
theorem c3_dispatch_at_most_once (w : World) (q : Int × Int) : tickDispatches w q ≤ 1 := by
  rw [tickDispatches]
  by_cases hdim : w.width ≤ 0 ∨ w.height ≤ 0
  · rw [if_pos hdim]
    omega
  · rw [if_neg hdim]
    refine le_trans (tickDispatchesAux_le _ (traversal_nodup w.width w.height) _ q) ?_
    dsimp only
    by_cases hq : q ∈ traversal w.width w.height
    · rw [if_pos hq]
    · rw [if_neg hq]
      omega

/-! ## C8: handler marking discipline -/

/-- 1×2 world: Sand at (0,0), Empty at (0,1). -/
def sandW8 : World :=
  ⟨1, 2, fun i => if i = 0 then ⟨Element.Sand, 0⟩ else cellDefault, ⟨1⟩⟩

/-- C8 counterexample: the Sand at (0,0) falls into the Empty cell below;
the powder handler marks the destination (0,1) but exits with the source
cell's mask entry still false — so not every handler sets the source
entry on every exit path. -/
theorem c8_mark_counterexample :
    (step_powder ⟨sandW8, fun _ => false⟩ 0 0).upd (sandW8.idx 0 0) = false
      ∧ (step_powder ⟨sandW8, fun _ => false⟩ 0 0).upd (sandW8.idx 0 1) = true
      ∧ (step_powder ⟨sandW8, fun _ => false⟩ 0 0).w.cells (sandW8.idx 0 1)
        = ⟨Element.Sand, 0⟩ := by
  decide

theorem swapCells_width (w : World) (i j : Nat) : (w.swapCells i j).width = w.width := rfl

theorem swapCells_height (w : World) (i j : Nat) : (w.swapCells i j).height = w.height := rfl

theorem powderTry_width (w : World) (idx0 : Nat) (nx ny : Int) :
    (powderTry w idx0 nx ny).1.width = w.width := by
  rw [powderTry]
  by_cases h1 : w.in_bounds nx ny = true
  · rw [if_pos h1]
    by_cases h2 : (w.cells (w.idx nx ny)).elem = Element.Empty
        ∨ is_liquid (w.cells (w.idx nx ny)).elem = true
    · rw [if_pos h2]
      dsimp only
      rw [swapCells_width]
    · rw [if_neg h2]
  · rw [if_neg h1]

theorem powderTry_height (w : World) (idx0 : Nat) (nx ny : Int) :
    (powderTry w idx0 nx ny).1.height = w.height := by
  rw [powderTry]
  by_cases h1 : w.in_bounds nx ny = true
  · rw [if_pos h1]
    by_cases h2 : (w.cells (w.idx nx ny)).elem = Element.Empty
        ∨ is_liquid (w.cells (w.idx nx ny)).elem = true
    · rw [if_pos h2]
      dsimp only
      rw [swapCells_height]
    · rw [if_neg h2]
  · rw [if_neg h1]

theorem powderTry_dest (w : World) (idx0 : Nat) (nx ny : Int)
    (h : (powderTry w idx0 nx ny).2 ≠ none) :
    w.in_bounds nx ny = true ∧ (powderTry w idx0 nx ny).2 = some (w.idx nx ny) := by
  rw [powderTry] at h ⊢
  by_cases h1 : w.in_bounds nx ny = true
  · rw [if_pos h1] at h ⊢
    by_cases h2 : (w.cells (w.idx nx ny)).elem = Element.Empty
        ∨ is_liquid (w.cells (w.idx nx ny)).elem = true
    · rw [if_pos h2]
      exact ⟨h1, rfl⟩
    · rw [if_neg h2] at h
      exact absurd rfl h
  · rw [if_neg h1] at h
    exact absurd rfl h

theorem powderMove_dest (w : World) (x y : Int) (idx0 : Nat) (j : Nat)
    (h : (powderMove w x y idx0).2 = some j) :
    ∃ nx, w.in_bounds nx (y + 1) = true ∧ j = w.idx nx (y + 1) := by
  rw [powderMove] at h
  split at h
  · rename_i h1
    dsimp only at h
    cases h
    exact ⟨x, h1.1, rfl⟩
  · dsimp only at h
    have hw1w : (w.withRng (w.rng.chance 50).2).width = w.width :=
      withRng_width w (w.rng.chance 50).2
    have hw1h : (w.withRng (w.rng.chance 50).2).height = w.height :=
      withRng_height w (w.rng.chance 50).2
    revert h hw1w hw1h
    generalize w.withRng (w.rng.chance 50).2 = w1
    generalize (if (w.rng.chance 50).1 = true then (1 : Int) else -1) = dir
    intro h hw1w hw1h
    cases htry : (powderTry w1 idx0 (x + dir) (y + 1)).2 with
    | some jj =>
      rw [htry] at h
      simp only at h
      cases h
      have hd := powderTry_dest w1 idx0 (x + dir) (y + 1)
        (by rw [htry]; exact fun hc => Option.noConfusion hc)
      rw [htry] at hd
      cases hd.2
      refine ⟨x + dir, ?_, ?_⟩
      · rw [← in_bounds_congr hw1w hw1h]
        exact hd.1
      · exact idx_congr hw1w _ _
    | none =>
      rw [htry] at h
      simp only at h
      have hiw : (powderTry w1 idx0 (x + dir) (y + 1)).1.width = w.width := by
        rw [powderTry_width]
        exact hw1w
      have hih : (powderTry w1 idx0 (x + dir) (y + 1)).1.height = w.height := by
        rw [powderTry_height]
        exact hw1h
      cases htry2 : (powderTry (powderTry w1 idx0 (x + dir) (y + 1)).1 idx0 (x - dir) (y + 1)).2 with
      | some jj =>
        rw [htry2] at h
        cases h
        have hd := powderTry_dest (powderTry w1 idx0 (x + dir) (y + 1)).1 idx0 (x - dir) (y + 1)
          (by rw [htry2]; exact fun hc => Option.noConfusion hc)
        rw [htry2] at hd
        cases hd.2
        refine ⟨x - dir, ?_, ?_⟩
        · rw [← in_bounds_congr hiw hih]
          exact hd.1
        · exact idx_congr hiw _ _
      | none =>
        rw [htry2] at h
        cases h

theorem liquidTry_width (w : World) (idx0 : Nat) (t : Element) (nx ny : Int) :
    (liquidTry w idx0 t nx ny).1.width = w.width := by
  rw [liquidTry]
  split
  · dsimp only
    split
    · rw [swapCells_width]
    · split
      · split
        · dsimp only
          rw [swapCells_width, withRng_width]
        · dsimp only
          rw [withRng_width]
      · rfl
  · rfl

theorem liquidTry_height (w : World) (idx0 : Nat) (t : Element) (nx ny : Int) :
    (liquidTry w idx0 t nx ny).1.height = w.height := by
  rw [liquidTry]
  split
  · dsimp only
    split
    · rw [swapCells_height]
    · split
      · split
        · dsimp only
          rw [swapCells_height, withRng_height]
        · dsimp only
          rw [withRng_height]
      · rfl
  · rfl

theorem liquidTry_snd (w : World) (idx0 : Nat) (t : Element) (nx ny : Int) :
    (liquidTry w idx0 t nx ny).2 = none
      ∨ (w.in_bounds nx ny = true
          ∧ (liquidTry w idx0 t nx ny).2 = some (w.idx nx ny)) := by
  rw [liquidTry]
  split
  · rename_i h1
    dsimp only
    split
    · exact Or.inr ⟨h1, rfl⟩
    · split
      · split
        · exact Or.inr ⟨h1, rfl⟩
        · exact Or.inl rfl
      · exact Or.inl rfl
  · exact Or.inl rfl

theorem liquidTry_dest (w : World) (idx0 : Nat) (t : Element) (nx ny : Int)
    (h : (liquidTry w idx0 t nx ny).2 ≠ none) :
    w.in_bounds nx ny = true ∧ (liquidTry w idx0 t nx ny).2 = some (w.idx nx ny) := by
  rcases liquidTry_snd w idx0 t nx ny with hn | hs
  · exact absurd hn h
  · exact hs

theorem liquidMove_dest (w : World) (x y : Int) (idx0 : Nat) (t : Element) (j : Nat)
    (h : (liquidMove w x y idx0 t).2 = some j) :
    ∃ nx ny, w.in_bounds nx ny = true ∧ ¬(nx = x ∧ ny = y) ∧ j = w.idx nx ny := by
  rw [liquidMove] at h
  split at h
  · rename_i h1
    dsimp only at h
    cases h
    exact ⟨x, y + 1, h1.1, by omega, rfl⟩
  · dsimp only at h
    have hw1w : (w.withRng (w.rng.chance 50).2).width = w.width :=
      withRng_width w (w.rng.chance 50).2
    have hw1h : (w.withRng (w.rng.chance 50).2).height = w.height :=
      withRng_height w (w.rng.chance 50).2
    have hd1ne : (if (w.rng.chance 50).1 = true then (1 : Int) else -1) ≠ 0 := by
      split
      · omega
      · omega
    revert h hw1w hw1h hd1ne
    generalize w.withRng (w.rng.chance 50).2 = w1
    generalize (if (w.rng.chance 50).1 = true then (1 : Int) else -1) = d1
    intro h hw1w hw1h hd1ne
    cases htry : (liquidTry w1 idx0 t (x + d1) y).2 with
    | some jj =>
      rw [htry] at h
      simp only at h
      cases h
      have hd := liquidTry_dest w1 idx0 t (x + d1) y
        (by rw [htry]; exact fun hc => Option.noConfusion hc)
      rw [htry] at hd
      cases hd.2
      refine ⟨x + d1, y, ?_, by intro hc; exact hd1ne (by omega), ?_⟩
      · rw [← in_bounds_congr hw1w hw1h]
        exact hd.1
      · exact idx_congr hw1w _ _
    | none =>
      rw [htry] at h
      simp only at h
      have hiw : (liquidTry w1 idx0 t (x + d1) y).1.width = w.width := by
        rw [liquidTry_width]
        exact hw1w
      have hih : (liquidTry w1 idx0 t (x + d1) y).1.height = w.height := by
        rw [liquidTry_height]
        exact hw1h
      cases htry2 : (liquidTry (liquidTry w1 idx0 t (x + d1) y).1 idx0 t (x - d1) y).2 with
      | some jj =>
        rw [htry2] at h
        cases h
        have hd := liquidTry_dest (liquidTry w1 idx0 t (x + d1) y).1 idx0 t (x - d1) y
          (by rw [htry2]; exact fun hc => Option.noConfusion hc)
        rw [htry2] at hd
        cases hd.2
        refine ⟨x - d1, y, ?_, by intro hc; exact hd1ne (by omega), ?_⟩
        · rw [← in_bounds_congr hiw hih]
          exact hd.1
        · exact idx_congr hiw _ _
      | none =>
        rw [htry2] at h
        cases h

/-- C8 (amended): the powder and liquid handlers mark exactly one mask
entry per invocation — the destination cell's entry when the cell moved
(leaving the source cell's entry false), the source cell's entry on every
non-moving exit path.  Handlers do not mark the source on moving paths. -/
theorem c8_mark_discipline (s : Sim) (x y : Int) (hb : s.w.in_bounds x y = true)
    (h0 : s.upd (s.w.idx x y) = false) :
    ((step_powder s x y).upd = markUpd s.upd (s.w.idx x y)
      ∨ ((step_powder s x y).upd (s.w.idx x y) = false
          ∧ ∃ j, j ≠ s.w.idx x y ∧ (step_powder s x y).upd = markUpd s.upd j
              ∧ (step_powder s x y).upd j = true))
    ∧ ((step_liquid s x y).upd = markUpd s.upd (s.w.idx x y)
      ∨ ((step_liquid s x y).upd (s.w.idx x y) = false
          ∧ ∃ j, j ≠ s.w.idx x y ∧ (step_liquid s x y).upd = markUpd s.upd j
              ∧ (step_liquid s x y).upd j = true)) := by
  constructor
  · have hupd : (step_powder s x y).upd
        = (match (powderMove s.w x y (s.w.idx x y)).2 with
           | some j => markUpd s.upd j
           | none => markUpd s.upd (s.w.idx x y)) := by
      rw [step_powder]
      cases (powderMove s.w x y (s.w.idx x y)).2 <;> rfl
    cases hmv : (powderMove s.w x y (s.w.idx x y)).2 with
    | none =>
      rw [hmv] at hupd
      exact Or.inl hupd
    | some j =>
      rw [hmv] at hupd
      dsimp only at hupd
      obtain ⟨nx, hnin, hj⟩ := powderMove_dest s.w x y (s.w.idx x y) j hmv
      have hjne : j ≠ s.w.idx x y := by
        intro hc
        rw [hj] at hc
        have := (idx_inj s.w hnin hb hc).2
        omega
      refine Or.inr ⟨?_, j, hjne, hupd, ?_⟩
      · rw [hupd]
        show (if s.w.idx x y = j then true else s.upd (s.w.idx x y)) = false
        rw [if_neg (fun hc => hjne hc.symm)]
        exact h0
      · rw [hupd]
        show (if j = j then true else s.upd j) = true
        rw [if_pos rfl]
  · have hupd : (step_liquid s x y).upd
        = (match (liquidMove s.w x y (s.w.idx x y) ((s.w.cells (s.w.idx x y)).elem)).2 with
           | some j => markUpd s.upd j
           | none => markUpd s.upd (s.w.idx x y)) := by
      rw [step_liquid]
      cases (liquidMove s.w x y (s.w.idx x y) ((s.w.cells (s.w.idx x y)).elem)).2 <;> rfl
    cases hmv : (liquidMove s.w x y (s.w.idx x y) ((s.w.cells (s.w.idx x y)).elem)).2 with
    | none =>
      rw [hmv] at hupd
      exact Or.inl hupd
    | some j =>
      rw [hmv] at hupd
      dsimp only at hupd
      obtain ⟨nx, ny, hnin, hne, hj⟩ :=
        liquidMove_dest s.w x y (s.w.idx x y) ((s.w.cells (s.w.idx x y)).elem) j hmv
      have hjne : j ≠ s.w.idx x y := by
        intro hc
        rw [hj] at hc
        have := idx_inj s.w hnin hb hc
        exact hne ⟨this.1, this.2⟩
      refine Or.inr ⟨?_, j, hjne, hupd, ?_⟩
      · rw [hupd]
        show (if s.w.idx x y = j then true else s.upd (s.w.idx x y)) = false
        rw [if_neg (fun hc => hjne hc.symm)]
        exact h0
      · rw [hupd]
        show (if j = j then true else s.upd j) = true
        rw [if_pos rfl]

/-- 1×2 world: Water at (0,0), Empty at (0,1). -/
def waterW8 : World :=
  ⟨1, 2, fun i => if i = 0 then ⟨Element.Water, 0⟩ else cellDefault, ⟨1⟩⟩

theorem c8_mark_discipline_witness :
    (step_liquid ⟨waterW8, fun _ => false⟩ 0 0).upd (waterW8.idx 0 0) = false := by
  have h := c8_mark_discipline ⟨waterW8, fun _ => false⟩ 0 0 (by decide) rfl
  rcases h.2 with h | h
  · exact absurd (congrFun h 1) (by decide)
  · exact h.1

/-! ## C9: hydrogen rise -/

/-- 1×4 column with Hydrogen (life 10) at the bottom row (0,3). -/
def hydrogenW9 : World :=
  ⟨1, 4, fun i => if i = 3 then ⟨Element.Hydrogen, 10⟩ else cellDefault, ⟨1⟩⟩

/-- C9 counterexample: Hydrogen at (0,3) with Empty at (0,2) and (0,1)
rises only one cell in a tick: after `step` it sits at (0,2) and (0,1) is
still Empty, although the claim predicts a two-cell rise to (0,1). -/
theorem c9_counterexample :
    hydrogenW9.get_cell 0 3 = ⟨Element.Hydrogen, 10⟩
      ∧ hydrogenW9.get_cell 0 2 = cellDefault
      ∧ hydrogenW9.get_cell 0 1 = cellDefault
      ∧ (hydrogenW9.step).get_cell 0 1 = ⟨Element.Empty, 0⟩
      ∧ (hydrogenW9.step).get_cell 0 2 = ⟨Element.Hydrogen, 10⟩ := by
  decide

/-- C9 (amended): Hydrogen's rise loop runs two attempts but a successful
rise breaks the loop, and after a failed attempt the state is unchanged so
the retry fails identically — two attempts are equivalent to one, and
Hydrogen, like every other gas, rises at most one cell per tick. -/
theorem c9_hydrogen_two_tries_eq_one (w : World) (x y : Int) (idx0 : Nat) :
    gasRise w x y idx0 2 = gasRise w x y idx0 1 := by
  by_cases h : w.in_bounds x (y - 1) = true
      ∧ (w.cells (w.idx x (y - 1))).elem = Element.Empty
  · rw [gasRise, gasRise, if_pos h, if_pos h]
  · rw [gasRise, gasRise, if_neg h, if_neg h, gasRise]

end PowderCore
